import Mathlib

/-!
# Verification of the swe-grep search-cycle engine

Shallow embedding of the swe-grep code base (crates/swe-grep-core), written
against the Rust sources:

* `src/search.rs` — query rewriter, scoring/dedup/metrics, hint store,
  cycle orchestrator;
* `src/tools/{rg,rga,fd,ast_grep,common}.rs` — tool adapters;
* `src/service/{server,http,grpc}.rs` — service surfaces;
* `src/cli.rs`, `src/main.rs` — the CLI surface.

Modelling conventions:

* `f32` scores are idealised as `Option ℚ` (`none` = NaN, `some q` = the
  finite value `q`); IEEE rounding is abstracted away, but NaN propagation
  and the partial comparison (`partial_cmp`) are modelled exactly.
* Filesystem paths are carried as plain `String`s already in their
  root-relative normalised form; `normalize_path` (which canonicalises via
  the OS) is therefore the identity on these strings.
* External processes (fd, rg, rga, ast-grep, the index) and filesystem
  reads are oracles: the adapter logic that consumes their output is
  embedded faithfully, the I/O itself is a parameter.
* Rust `HashMap`/`HashSet` values are modelled as insertion-ordered
  association lists / lists without duplicates; only their set/map
  semantics (membership, size, per-key value) is relied upon.
* Wall-clock stage timings (`*_ms` fields) and telemetry are write-only in
  the source and are omitted from the model.

Core `String` functions of Lean (trim, split, …) are re-implemented over
`List Char` by structural recursion so that every definition evaluates
inside the kernel; each mirrors the corresponding Rust `str` method.
-/

namespace SweGrep

/-! ## Character/string helpers (models of Rust `str` methods) -/

/-- Model of `str::trim` (left part): drop leading whitespace. -/
def trimLeftChars : List Char → List Char
  | [] => []
  | c :: rest => if c.isWhitespace then trimLeftChars rest else c :: rest

/-- Model of `str::trim`: drop leading and trailing whitespace. -/
def trimChars (l : List Char) : List Char :=
  ((trimLeftChars (trimLeftChars l).reverse)).reverse

/-- `str::trim` on `String`. -/
def strTrim (s : String) : String := ⟨trimChars s.data⟩

/-- Model of `str::starts_with`. -/
def startsWithChars : List Char → List Char → Bool
  | _, [] => true
  | [], _ :: _ => false
  | c :: rest, p :: ps => c = p && startsWithChars rest ps

/-- `str::starts_with` on `String`. -/
def strStartsWith (s p : String) : Bool := startsWithChars s.data p.data

/-- Model of `str::to_ascii_lowercase` (`Char.toLower` is ASCII-only, as in Rust). -/
def strToLower (s : String) : String := ⟨s.data.map Char.toLower⟩

/-- Model of `str::split(pred)`: splits at every matching char, keeping empty segments. -/
def splitChars (p : Char → Bool) : List Char → List (List Char)
  | [] => [[]]
  | c :: rest =>
    let r := splitChars p rest
    if p c then [] :: r
    else
      match r with
      | [] => [[c]]
      | seg :: segs => (c :: seg) :: segs

/-- `str::split` on `String`. -/
def strSplit (s : String) (p : Char → Bool) : List String :=
  (splitChars p s.data).map (fun l => ⟨l⟩)

/-- Helper for `str::contains(&str)`: does `l` contain `pat` as a contiguous run? -/
def containsSubAux (pat : List Char) : List Char → Bool
  | [] => false
  | c :: rest => startsWithChars (c :: rest) pat || containsSubAux pat rest

/-- Model of `str::contains(&str)`. -/
def strContainsSub (s pat : String) : Bool :=
  pat.data.isEmpty || containsSubAux pat.data s.data

/-- Insertion-ordered string dedup, as in `dedup_queries` (search.rs): a seen-set
plus an output vector, keeping the first occurrence. -/
def dedupStringsAux (seen : List String) : List String → List String
  | [] => []
  | q :: rest =>
    if q ∈ seen then dedupStringsAux seen rest
    else q :: dedupStringsAux (q :: seen) rest

/-- `dedup_queries` from search.rs. -/
def dedupQueries (l : List String) : List String := dedupStringsAux [] l

/-! ## Path helpers (models of Rust `Path` methods on normalised path strings) -/

/-- Last `/`-separated component of a path string (`Path::file_name`-like). -/
def lastComponent (p : String) : String :=
  match (splitChars (fun c => c = '/') p.data).getLast? with
  | some l => ⟨l⟩
  | none => p

/-- Model of `Path::extension`: the part of the file name after the last dot,
`none` for names with no dot or a single leading dot. -/
def pathExt (p : String) : Option String :=
  let name := (lastComponent p).data
  match splitChars (fun c => c = '.') name with
  | [] => none
  | first :: rest =>
    if first.isEmpty || rest.isEmpty then none
    else (rest.getLast?).map (fun l => ⟨l⟩)

/-- Join char-list path components with `/` (inverse of splitting). -/
def joinSlash : List (List Char) → List Char
  | [] => []
  | [l] => l
  | l :: rest => l ++ '/' :: joinSlash rest

/-- Model of `Path::parent().and_then(|p| p.to_str())` on a relative path string:
`none` for the empty path, `some ""` for a single component. -/
def parentDir (p : String) : Option String :=
  if p.data.isEmpty then none
  else if p.data.contains '/' then
    some ⟨joinSlash (splitChars (fun c => c = '/') p.data).dropLast⟩
  else some ""

/-! ## Language hint expansion (`expand_language_hint`, search.rs) -/

/-- `expand_language_token` from search.rs. -/
def expandLanguageToken (t : String) : List String :=
  if t = "typescript" || t = "ts" then ["ts", "tsx"]
  else if t = "tsx" then ["tsx"]
  else if t = "swift" then ["swift"]
  else if t = "rust" || t = "rs" then ["rust"]
  else if t = "javascript" || t = "js" then ["js", "jsx"]
  else if t = "jsx" then ["jsx"]
  else if t = "kotlin" || t = "kt" then ["kt", "kts"]
  else if t = "kts" then ["kts"]
  else if t = "python" || t = "py" then ["py"]
  else if t = "swiftui" then ["swift"]
  else [t]

/-- Model of `str::trim_start_matches("auto-")`: strips every leading repetition. -/
def stripAuto : List Char → List Char
  | 'a' :: 'u' :: 't' :: 'o' :: '-' :: rest => stripAuto rest
  | l => l

/-- `expand_language_hint` from search.rs. -/
def expandLanguageHint (language : Option String) : List String :=
  match language with
  | none => []
  | some raw =>
    let normalized := strToLower (strTrim raw)
    if normalized.data.isEmpty then []
    else
      let tokens :=
        if strStartsWith normalized "auto-" then
          let remainder : String := ⟨stripAuto normalized.data⟩
          let parts := (strSplit remainder
            (fun c => c = '-' || c = '+' || c = '|' || c = ',')).filter
            (fun part => !part.data.isEmpty)
          parts.flatMap expandLanguageToken
        else
          let parts := (strSplit normalized
            (fun c => c = '+' || c = '|' || c = ',')).filter
            (fun part => !part.data.isEmpty)
          if parts.isEmpty then expandLanguageToken normalized
          else parts.flatMap expandLanguageToken
      dedupQueries tokens

/-- `languages_include` from search.rs. -/
def languagesInclude (tokens : List String) (needle : String) : Bool :=
  tokens.any (fun t => t = needle)

/-- Append-if-absent helper used by `extensions_for_languages`. -/
def addUnique (l : List String) (x : String) : List String :=
  if l.contains x then l else l ++ [x]

/-- `extensions_for_languages` from search.rs. -/
def extensionsForLanguages (languages : List String) : Option (List String) :=
  let results := languages.foldl
    (fun acc lang =>
      if lang = "swift" then addUnique acc "swift"
      else if lang = "tsx" then addUnique acc "tsx"
      else if lang = "ts" || lang = "typescript" then addUnique (addUnique acc "ts") "tsx"
      else if lang = "rust" then addUnique acc "rs"
      else if lang = "js" || lang = "javascript" then addUnique (addUnique acc "js") "jsx"
      else if lang = "jsx" then addUnique acc "jsx"
      else if lang = "kt" || lang = "kts" || lang = "kotlin" then
        addUnique (addUnique acc "kt") "kts"
      else if lang = "py" || lang = "python" then addUnique acc "py"
      else acc)
    []
  if results.isEmpty then none else some results

/-- `passes_extension_filter` from search.rs (`eq_ignore_ascii_case` comparison). -/
def passesExtensionFilter (p : String) (exts : Option (List String)) : Bool :=
  match exts with
  | none => true
  | some es =>
    match pathExt p with
    | none => false
    | some e => es.any (fun cand => strToLower cand = strToLower e)

/-- `detect_language_from_path` from search.rs. -/
def detectLanguageFromPath (p : String) : Option String :=
  match pathExt p with
  | none => none
  | some e =>
    let l := strToLower e
    if l = "rs" then some "rust"
    else if l = "swift" then some "swift"
    else if l = "ts" then some "typescript"
    else if l = "tsx" then some "tsx"
    else if l = "js" then some "javascript"
    else if l = "jsx" then some "jsx"
    else if l = "py" then some "python"
    else if l = "kt" then some "kotlin"
    else if l = "kts" then some "kotlin"
    else none

/-! ## Query rewriter (`QueryRewriter`, search.rs)

Every rewrite is produced by `format!` string interpolation and then
`escape_literal`.  Each interpolation uses the (trimmed) symbol exactly once,
so every template is written here in the normal form `pre ++ (s ++ post)`;
the resulting string values are exactly those built by the source. -/

/-- `capitalize` from search.rs: ASCII-uppercase the first char. -/
def capitalize (s : String) : String :=
  match s.data with
  | [] => s
  | first :: rest => ⟨first.toUpper :: rest⟩

/-- Suffix of the char list starting at its last uppercase letter, if any
(models `s[index..]` for the last uppercase `char_indices` position). -/
def fromLastUpper : List Char → Option (List Char)
  | [] => none
  | c :: rest =>
    match fromLastUpper rest with
    | some suf => some suf
    | none => if c.isUpper then some (c :: rest) else none

namespace QueryRewriter

/-- The metacharacters escaped by `QueryRewriter::escape_literal`
(`\ . + * ? ^ $ ( ) [ ] { } |`; braces written with escapes). -/
def isMetaChar (c : Char) : Bool :=
  c = '\\' || c = '.' || c = '+' || c = '*' || c = '?' || c = '^' || c = '$' ||
  c = '(' || c = ')' || c = '[' || c = ']' || c = '\x7b' || c = '\x7d' || c = '|'

/-- Char-level body of `escape_literal`: prepend a backslash to every metachar. -/
def escapeChars : List Char → List Char
  | [] => []
  | c :: rest =>
    if isMetaChar c then '\\' :: c :: escapeChars rest else c :: escapeChars rest

/-- `QueryRewriter::escape_literal` from search.rs. -/
def escapeLiteral (s : String) : String := ⟨escapeChars s.data⟩

/-- `QueryRewriter::derive_type_hint` from search.rs.  (Rust uses Unicode
`char::is_uppercase`; the model uses ASCII `Char.isUpper`, which agrees on
the ASCII identifiers the engine targets.) -/
def deriveTypeHint (symbol : String) : String :=
  let s := strTrim symbol
  if s.data.isEmpty then "value"
  else
    let lastSeg : List Char :=
      match (splitChars (fun c => c = ':' || c = '_' || c = '.') s.data).getLast? with
      | some l => l
      | none => []
    if s.data.contains '_' then capitalize ⟨lastSeg⟩
    else
      match fromLastUpper s.data with
      | some suf => ⟨suf⟩
      | none => capitalize s

/-- Build one rewrite from a `(pre, post)` template pair: the value of
`escape_literal(&format!("<pre>{s}<post>"))`. -/
def mkQuery (s : String) (ab : String × String) : String :=
  escapeLiteral (ab.1 ++ (s ++ ab.2))

/-- Whether the symbol's first char is uppercase (`is_component` / `is_type_like`). -/
def headIsUpper (s : String) : Bool :=
  match s.data with
  | [] => false
  | c :: _ => c.isUpper

/-- Template pairs of `build_typescript_variants`, in source push order. -/
def tsVariantPairs (symbol : String) : List (String × String) :=
  if symbol.data.isEmpty then []
  else
    let isHook := strStartsWith symbol "use" && symbol.data.length > 3
    let isComponent := headIsUpper symbol
    [("", "<"), ("", " <"), ("<", ""), ("</", ""), ("", " extends"),
     ("type ", ""), ("interface ", ""), ("const ", ""), ("export const ", ""),
     ("function ", ""), ("export function ", ""), ("", "("), ("", " satisfies"),
     ("namespace ", ""), ("export default ", ""), ("", " props"), ("", ":")]
    ++ (if isHook then [("", "("), ("", "<\x7b")] else [])
    ++ (if headIsUpper symbol then
          [("<", " "), ("<", " />"), ("", "Props"), ("", "Component")]
        else [])
    ++ (if isComponent then
          [("<", " \x7b..."), ("React.memo(", ""), ("React.forwardRef(", "")]
        else [])

/-- `QueryRewriter::build_typescript_variants` from search.rs. -/
def buildTypescriptVariants (s : String) : List String :=
  (tsVariantPairs s).map (mkQuery s)

/-- Template pairs of `build_rust_variants`, in source order. -/
def rustVariantPairs (symbol : String) : List (String × String) :=
  if symbol.data.isEmpty then []
  else
    [("fn ", ""), ("impl ", ""), ("trait ", ""), ("pub(crate) ", ""),
     ("", "::<"), ("::", ""), ("macro_rules! ", "")]

/-- `QueryRewriter::build_rust_variants` from search.rs. -/
def buildRustVariants (s : String) : List String :=
  (rustVariantPairs s).map (mkQuery s)

/-- Template pairs of `build_swift_variants`, in source push order. -/
def swiftVariantPairs (symbol : String) : List (String × String) :=
  if symbol.data.isEmpty then []
  else
    let isTypeLike := headIsUpper symbol
    [("func ", ""), ("func ", "("), ("func ", "<"), ("", " async"),
     ("@MainActor func ", ""), ("", "("), (".", ""), ("self.", ""), ("await ", "")]
    ++ (if isTypeLike then
          [("@", ""), (": ", ""), ("extension ", ""), ("where ", "")]
        else [])

/-- `QueryRewriter::build_swift_variants` from search.rs. -/
def buildSwiftVariants (s : String) : List String :=
  (swiftVariantPairs s).map (mkQuery s)

/-- Template pairs of the four base rewrites in `QueryRewriter::build`
(`{s}`, `{s} {type_hint}`, `{s} error`, `{type_hint}.{s}`). -/
def baseQueryPairs (th : String) : List (String × String) :=
  [("", ""), ("", " " ++ th), ("", " error"), (th ++ ".", "")]

/-- `QueryRewriter::build` from search.rs. -/
def build (symbol : String) (languages : List String) : List String :=
  let s := strTrim symbol
  if s.data.isEmpty then []
  else
    let th := deriveTypeHint symbol
    let base := (baseQueryPairs th).map (mkQuery s)
    let extra := languages.flatMap (fun lang =>
      if lang = "typescript" || lang = "ts" || lang = "tsx" then
        buildTypescriptVariants s
      else if lang = "swift" then buildSwiftVariants s
      else if lang = "rust" then buildRustVariants s
      else [])
    dedupQueries (base ++ extra)

/-- Reference denotation of an escaped regex: consumes `\c` pairs as the
literal `c` and plain non-metacharacters as themselves; a bare metacharacter
(which the regex engine would interpret structurally) yields `none`. -/
def unescapeLit : List Char → Option (List Char)
  | [] => some []
  | c :: rest =>
    if c = '\\' then
      match rest with
      | [] => none
      | d :: rest' => (unescapeLit rest').map (fun l => d :: l)
    else if isMetaChar c then none
    else (unescapeLit rest).map (fun l => c :: l)

end QueryRewriter

/-! ## Scores: `f32` idealised with an explicit NaN -/

/-- An `f32` score: `none` models NaN, `some q` a finite value. -/
abbrev FScore := Option ℚ

/-- Adding a finite constant to a score (`hit.score += c`): NaN propagates. -/
def addF (s : FScore) (c : ℚ) : FScore := s.map (fun q => q + c)

/-- Total comparison of rationals, as `f32::partial_cmp` behaves on finite values. -/
def qcmp (a b : ℚ) : Ordering :=
  if a < b then .lt else if a = b then .eq else .gt

/-- Model of `f32::partial_cmp`: `none` whenever either side is NaN. -/
def fpartialCmp : FScore → FScore → Option Ordering
  | some a, some b => some (qcmp a b)
  | _, _ => none

/-- Model of `f32`'s `>` (`hit.score > existing.score`): false on NaN. -/
def sgtF (a b : FScore) : Bool :=
  match fpartialCmp a b with
  | some .gt => true
  | _ => false

/-! ## Hits and matches (search.rs data model) -/

/-- `ProbeKind` from search.rs. -/
inductive ProbeKind where
  | scoped
  | global
  | indexed
deriving DecidableEq, Repr

/-- `HitOrigin` from search.rs. -/
inductive HitOrigin where
  | ripgrep (kind : ProbeKind)
  | astGrep
  | rga
deriving DecidableEq, Repr

/-- `HitOrigin::as_str` from search.rs. -/
def HitOrigin.asStr : HitOrigin → String
  | .ripgrep .scoped => "rg-scoped"
  | .ripgrep .global => "rg-global"
  | .ripgrep .indexed => "rg-indexed"
  | .astGrep => "ast-grep"
  | .rga => "rga"

/-- `RipgrepMatch` from tools/rg.rs (path already root-relative normalised). -/
structure RipgrepMatch where
  path : String
  lineNumber : Nat
  lines : String
  rawJson : String
deriving DecidableEq, Repr

/-- `RgaMatch` from tools/rga.rs. -/
structure RgaMatch where
  path : String
  lineNumber : Nat
  lines : String
deriving DecidableEq, Repr

/-- `AstGrepMatch` from tools/ast_grep.rs (0-based line as reported). -/
structure AstGrepMatch where
  path : String
  line : Nat
deriving DecidableEq, Repr

/-- `SearchHit` from search.rs. -/
structure SearchHit where
  path : String
  line : Nat
  snippet : String
  score : FScore
  origin : HitOrigin
deriving DecidableEq, Repr

/-- The `(path, line)` identity key of a hit. -/
def hitKey (h : SearchHit) : String × Nat := (h.path, h.line)

/-- `SearchHit::from_ripgrep` from search.rs: starting score 1.0.
(Path canonicalisation is the identity on the modelled normalised strings.) -/
def SearchHit.fromRipgrep (m : RipgrepMatch) (kind : ProbeKind) : SearchHit :=
  { path := m.path
    line := m.lineNumber
    snippet := m.lines
    score := some 1
    origin := .ripgrep kind }

/-- `SearchHit::from_rga` from search.rs: starting score 0.9. -/
def SearchHit.fromRga (m : RgaMatch) : SearchHit :=
  { path := m.path
    line := m.lineNumber
    snippet := m.lines
    score := some (9/10)
    origin := .rga }

/-! ## Scoring, dedup and metrics (`SearchEngine::verify`, `compute_metrics`) -/

/-- The ast-grep key set built at the top of `verify`: normalised path and
1-based line (`m.line.saturating_add(1)`; `Nat` addition cannot overflow).
Modelled as a deduplicated list (the source uses a `HashSet`). -/
def mkAstSet (ms : List AstGrepMatch) : List (String × Nat) :=
  (ms.map (fun m => (m.path, m.line + 1))).dedup

/-- The per-hit scoring step of `verify` (search.rs lines 779–794):
fd-candidate bonus, origin adjustment, then ast-grep promotion, in that
order. -/
def adjustHit (fdSet : List String) (astSet : List (String × Nat))
    (h : SearchHit) : SearchHit :=
  let key := (h.path, h.line)
  let s1 := if h.path ∈ fdSet then addF h.score (2/10) else h.score
  let s2 :=
    match h.origin with
    | .ripgrep .global => addF s1 (-(5/100))
    | .ripgrep .indexed => addF s1 (1/10)
    | .rga => addF s1 (-(1/10))
    | _ => s1
  if key ∈ astSet then { h with score := addF s2 (1/2), origin := .astGrep }
  else { h with score := s2 }

/-- One step of the `dedup` map of `verify`: `entry(key).and_modify(replace
when strictly greater).or_insert(hit)`.  The `HashMap` is modelled as an
insertion-ordered association list of hits keyed by `hitKey`. -/
def insertMerged (acc : List SearchHit) (h : SearchHit) : List SearchHit :=
  if acc.any (fun e => hitKey e = hitKey h) then
    acc.map (fun e =>
      if hitKey e = hitKey h ∧ sgtF h.score e.score then h else e)
  else acc ++ [h]

/-- The merge step of `verify`: fold every (already adjusted) hit into the
per-key map, keeping the strictly-greater replacement. -/
def mergeByKey (hits : List SearchHit) : List SearchHit :=
  hits.foldl insertMerged []

/-- The comparator of `verify`'s sort:
`b.score.partial_cmp(&a.score).unwrap_or(Equal)` (descending by score,
NaN comparisons collapse to `Equal`). -/
def cmpHits (a b : SearchHit) : Ordering :=
  (fpartialCmp b.score a.score).getD .eq

/-- The sort relation induced by the comparator: `a` may precede `b`. -/
def hitLeR (a b : SearchHit) : Prop := cmpHits a b ≠ .gt

instance : DecidableRel hitLeR := fun a b => by
  unfold hitLeR; infer_instance

/-- `dedup_hits.sort_by(comparator)`: a stable sort by the comparator
(Rust's stable `sort_by`, modelled by insertion sort, which agrees with it
on total comparators; for incomparable scores Rust leaves the order
unspecified). -/
def sortHits (l : List SearchHit) : List SearchHit :=
  List.insertionSort hitLeR l

/-- `SearchCache::retain_new` from search.rs: drop hits whose key was seen
in an earlier summary of this engine instance, inserting the kept keys.
Returns the kept hits together with the updated seen-set. -/
def retainNew (seen : List (String × Nat)) :
    List SearchHit → List SearchHit × List (String × Nat)
  | [] => ([], seen)
  | h :: rest =>
    if hitKey h ∈ seen then retainNew seen rest
    else
      (h :: (retainNew (hitKey h :: seen) rest).1,
       (retainNew (hitKey h :: seen) rest).2)

/-- `SearchMetrics` from search.rs. -/
structure SearchMetrics where
  precision : ℚ
  density : ℚ
  clusterScore : ℚ
  reward : ℚ
deriving DecidableEq, Repr

/-- The all-zero default metrics. -/
def SearchMetrics.zero : SearchMetrics :=
  { precision := 0, density := 0, clusterScore := 0, reward := 0 }

/-- `compute_metrics` from search.rs.  `astSet` is the ast-grep key set
(`ast_set.len()` = number of distinct keys), `fdCandidates` = `fd_set.len()`. -/
def computeMetrics (hits : List SearchHit) (astSet : List (String × Nat))
    (fdCandidates : Nat) : SearchMetrics :=
  if hits.isEmpty then SearchMetrics.zero
  else
    let precision : ℚ := (astSet.dedup.length : ℚ) / (hits.length : ℚ)
    let uniqueFiles := (hits.map (fun h => h.path)).dedup
    let densityRaw : ℚ := (hits.length : ℚ) / (uniqueFiles.length : ℚ)
    let density := densityRaw / (densityRaw + 1)
    let minLine := hits.foldl (fun acc h => Nat.min acc h.line) 18446744073709551615
    let maxLine := hits.foldl (fun acc h => Nat.max acc h.line) 0
    let lineSpan := maxLine - minLine
    let clusterNorm : ℚ := (lineSpan : ℚ) / ((hits.length : ℚ) + 1)
    let clusterScore := 1 / (1 + clusterNorm)
    let fdBonus : ℚ :=
      if 0 < fdCandidates then
        ((Nat.min hits.length fdCandidates : ℚ)) / (fdCandidates : ℚ)
      else 0
    let reward := 5/10 * precision + 3/10 * density + 15/100 * clusterScore
      + 5/100 * fdBonus
    { precision := precision, density := density, clusterScore := clusterScore,
      reward := reward }

/-- `round_two` from search.rs (`(v * 100.0).round() / 100.0`). -/
def roundTwo (v : ℚ) : ℚ := (round (v * 100) : ℤ) / 100

/-- `round_two` lifted to scores (NaN stays NaN). -/
def roundTwoF (s : FScore) : FScore := s.map roundTwo

/-- `TopHit` from search.rs (snippet formatting reads the filesystem and is
presentation-only; it is not modelled). -/
structure TopHit where
  path : String
  line : Nat
  score : FScore
  origin : String
  originLabel : String
deriving DecidableEq, Repr

/-- `SearchEngine::format_origin_label` (the language cache is a pure memo). -/
def formatOriginLabel (origin : HitOrigin) (path : String) : String :=
  let tool := origin.asStr
  match detectLanguageFromPath path with
  | some lang => tool ++ " [" ++ lang ++ "]"
  | none => tool

/-- Presentation form of one hit (the `TopHit` construction in `verify`). -/
def toTopHit (h : SearchHit) : TopHit :=
  { path := h.path
    line := h.line
    score := roundTwoF h.score
    origin := h.origin.asStr
    originLabel := formatOriginLabel h.origin h.path }

/-! ## Persistent hint store (`PersistentState`, search.rs) -/

/-- `PersistentStateData`: the two on-disk maps, as association lists. -/
structure PersistentStateData where
  symbolHits : List (String × List String)
  directoryScores : List (String × Nat)
deriving DecidableEq, Repr

/-- `PersistentState` (minus the file paths, which are I/O): data plus dirty flag. -/
structure PersistentState where
  data : PersistentStateData
  dirty : Bool
deriving DecidableEq, Repr

/-- Association-list lookup (model of `HashMap::get`). -/
def assocLookup (key : String) : List (String × α) → Option α
  | [] => none
  | (k, v) :: rest => if k = key then some v else assocLookup key rest

/-- Association-list insert-or-replace (model of `HashMap` entry update). -/
def assocInsert (key : String) (v : α) : List (String × α) → List (String × α)
  | [] => [(key, v)]
  | (k, w) :: rest =>
    if k = key then (k, v) :: rest else (k, w) :: assocInsert key v rest

/-- `u32::saturating_add(1)` on the directory counter. -/
def bumpCounter (c : Nat) : Nat := Nat.min (c + 1) 4294967295

/-- Increment one directory's counter (`entry(dir).or_insert(0)` then
saturating add). -/
def bumpDirectory (dir : String) (scores : List (String × Nat)) :
    List (String × Nat) :=
  match assocLookup dir scores with
  | some c => assocInsert dir (bumpCounter c) scores
  | none => scores ++ [(dir, bumpCounter 0)]

/-- `PersistentState::observe` from search.rs: no-op on empty hits, else
append up to 10 new hit paths to the symbol's list (existing order kept,
truncated to 10) and bump the parent-directory counters of the first 20
hits, then set the dirty flag. -/
def observeStore (st : PersistentState) (symbol : String)
    (hits : List SearchHit) : PersistentState :=
  if hits.isEmpty then st
  else
    let existing := (assocLookup symbol st.data.symbolHits).getD []
    let entry := (hits.take 10).foldl
      (fun e h => if h.path ∈ e then e else e ++ [h.path]) existing
    let entry := entry.take 10
    let symbolHits := assocInsert symbol entry st.data.symbolHits
    let directoryScores := (hits.take 20).foldl
      (fun m h =>
        match parentDir h.path with
        | some dir => if dir.data.isEmpty then m else bumpDirectory dir m
        | none => m)
      st.data.directoryScores
    { data := { symbolHits := symbolHits, directoryScores := directoryScores }
      dirty := true }

/-- `PersistentState::hints_for_symbol`: stored paths that exist on disk
(`fsExists` oracle) and whose leaf is not hidden. -/
def hintsForSymbol (fsExists : String → Bool) (st : PersistentState)
    (symbol : String) : List String :=
  ((assocLookup symbol st.data.symbolHits).getD []).filter
    (fun p => fsExists p && !(strStartsWith (lastComponent p) "."))

/-- Score-descending order on directory entries (`dirs.sort_by(|a, b| b.1.cmp(a.1))`;
`HashMap` iteration order is unspecified, so this fixes one admissible order). -/
def dirScoreGe (a b : String × Nat) : Prop := b.2 ≤ a.2

instance : DecidableRel dirScoreGe := fun a b => by
  unfold dirScoreGe; infer_instance

/-- `PersistentState::top_directories`: sort by score descending, take the
limit, then keep those that are directories (`isDir` oracle). -/
def topDirectories (isDir : String → Bool) (st : PersistentState)
    (limit : Nat) : List String :=
  (((List.insertionSort dirScoreGe st.data.directoryScores).take limit).filter
    (fun e => isDir e.1)).map (fun e => e.1)

/-! ## Verify (`SearchEngine::verify`, search.rs lines 762–856) -/

/-- `VerificationOutcome` from search.rs. -/
structure VerificationOutcome where
  topHits : List TopHit
  nextActions : List String
  dedupCount : Nat
  fdCandidates : List String
  astHits : List (String × Nat)
  metrics : SearchMetrics
deriving DecidableEq, Repr

/-- `verify`'s result together with the mutated engine-owned state. -/
structure VerifyResult where
  outcome : VerificationOutcome
  seen : List (String × Nat)
  store : PersistentState
deriving DecidableEq, Repr

/-- `SearchEngine::verify`: score adjustment, merge by key, sort descending,
cross-cycle dedup, hint observation, presentation and metrics. -/
def verifyModel (symbol : String) (seen : List (String × Nat))
    (store : PersistentState) (hits : List SearchHit)
    (astMatches : List AstGrepMatch) (fdSet : List String)
    (fdCandidates : List String) : VerifyResult :=
  let astSet := mkAstSet astMatches
  let adjusted := hits.map (adjustHit fdSet astSet)
  let merged := mergeByKey adjusted
  let sorted := sortHits merged
  let (remaining, seen') := retainNew seen sorted
  let store' := observeStore store symbol remaining
  let topHits := (remaining.take 5).map toTopHit
  let nextActions := topHits.map
    (fun t => "inspect " ++ t.path ++ ":" ++ toString t.line)
  let astHits := astMatches.map (fun a => (a.path, a.line + 1))
  let metrics := computeMetrics remaining astSet fdSet.dedup.length
  { outcome :=
      { topHits := topHits
        nextActions := nextActions
        dedupCount := remaining.length
        fdCandidates := fdCandidates
        astHits := astHits
        metrics := metrics }
    seen := seen'
    store := store' }

/-! ## Tool adapters (tools/rg.rs, tools/rga.rs, tools/fd.rs, tools/ast_grep.rs)

The subprocess itself is an oracle (its stdout lines / parsed output); the
adapter logic consuming that output is embedded.  `ChildAction` records what
the adapter does with the child after its read loop finishes: the source
takes the child out of the kill-on-drop guard and *waits* for it
(`guard.take()` … `child.wait()`, commented "prevents kill on normal exit");
the guard's kill fires only when the future is dropped early (timeout or
cancellation), not on the cap path. -/

/-- What the adapter does with the child after a completed read loop. -/
inductive ChildAction where
  | waited
  | killed
deriving DecidableEq, Repr

/-- The `data` of a parsed ripgrep JSON `match` record (tools/common.rs). -/
structure RgMatchData where
  path : String
  lineNumber : Nat
  lines : String
deriving DecidableEq, Repr

/-- Result of the rg adapter's collection loop. -/
structure RgCollectResult where
  matchList : List RipgrepMatch
  capBreak : Bool
  childAction : ChildAction
deriving DecidableEq, Repr

/-- The stdout read loop of `RipgrepTool::search_union` (tools/rg.rs lines
117–139): read a line, break once `max_matches` is reached, skip lines that
do not parse as a `match` record (`parse` is the serde_json oracle: `none`
for parse errors and non-`match` records). -/
def rgCollectAux (maxMatches : Nat) (parse : String → Option RgMatchData)
    (acc : List RipgrepMatch) : List String → List RipgrepMatch × Bool
  | [] => (acc, false)
  | line :: rest =>
    if maxMatches ≤ acc.length then (acc, true)
    else
      match parse line with
      | some d =>
        rgCollectAux maxMatches parse
          (acc ++ [{ path := d.path, lineNumber := d.lineNumber,
                     lines := d.lines, rawJson := line }]) rest
      | none => rgCollectAux maxMatches parse acc rest

/-- The rg adapter's collection phase: the read loop, then `guard.take()`
and `child.wait()` (never a kill on this path). -/
def rgCollect (maxMatches : Nat) (parse : String → Option RgMatchData)
    (stdoutLines : List String) : RgCollectResult :=
  let (ms, cb) := rgCollectAux maxMatches parse [] stdoutLines
  { matchList := ms, capBreak := cb, childAction := .waited }

/-- Result of the rga adapter's collection loop. -/
structure RgaCollectResult where
  matchList : List RgaMatch
  capBreak : Bool
  childAction : ChildAction
deriving DecidableEq, Repr

/-- The stdout read loop of `RgaTool::search` (tools/rga.rs lines 59–79),
identical in structure to the rg loop. -/
def rgaCollectAux (maxMatches : Nat) (parse : String → Option RgMatchData)
    (acc : List RgaMatch) : List String → List RgaMatch × Bool
  | [] => (acc, false)
  | line :: rest =>
    if maxMatches ≤ acc.length then (acc, true)
    else
      match parse line with
      | some d =>
        rgaCollectAux maxMatches parse
          (acc ++ [{ path := d.path, lineNumber := d.lineNumber,
                     lines := d.lines }]) rest
      | none => rgaCollectAux maxMatches parse acc rest

/-- The rga adapter's collection phase. -/
def rgaCollect (maxMatches : Nat) (parse : String → Option RgMatchData)
    (stdoutLines : List String) : RgaCollectResult :=
  let (ms, cb) := rgaCollectAux maxMatches parse [] stdoutLines
  { matchList := ms, capBreak := cb, childAction := .waited }

/-- The stdout read loop of `FdTool::run` (tools/fd.rs lines 61–68): every
non-blank line is trimmed and joined to the root.  There is no adapter-side
cap: the result cap is delegated to fd's own `--max-results` flag (which the
engine fixes at 200 in `ensure_fd_tool`, independent of the request's
`max_matches`). -/
def fdCollect (root : String) (stdoutLines : List String) : List String :=
  stdoutLines.filterMap (fun line =>
    if (trimChars line.data).isEmpty then none
    else some (root ++ "/" ++ (⟨trimChars line.data⟩ : String)))

/-! ### ast-grep adapter (tools/ast_grep.rs) -/

/-- Parsed shape of an ast-grep stdout (`cmd.output()` reads it whole):
either empty, a top-level JSON array, or newline-delimited objects with
per-line parse results (`none` = a line that failed to parse). -/
inductive AstStdout where
  | empty
  | arr (ms : List AstGrepMatch)
  | jsonl (entries : List (Option AstGrepMatch))
deriving DecidableEq, Repr

/-- Oracle view of one ast-grep child run. -/
structure AstProcOutput where
  stderrLines : List String
  success : Bool
  code : Option Int
  stdout : AstStdout
deriving DecidableEq, Repr

/-- The error type of the ast-grep adapter: the distinguished
`AstPatternError` or any other tool failure. -/
inductive AstError where
  | patternError (pattern : String) (message : String)
  | toolError (message : String)
deriving DecidableEq, Repr

/-- The newline-delimited parse loop of `run_pattern` (check the cap before
each push, skip unparseable lines). -/
def jsonlCollectAux (limit : Nat) (acc : List AstGrepMatch) :
    List (Option AstGrepMatch) → List AstGrepMatch
  | [] => acc
  | none :: rest => jsonlCollectAux limit acc rest
  | some m :: rest =>
    if limit ≤ acc.length then acc
    else jsonlCollectAux limit (acc ++ [m]) rest

/-- `AstGrepTool::run_pattern` (tools/ast_grep.rs lines 68–175) applied to
the child's output: a stderr line containing "Pattern contains an ERROR
node" yields the distinguished pattern error; exit statuses other than 0
and 1 are tool errors; otherwise the stdout is parsed (array first, then
line-by-line) up to `limit` matches.  `limit = 0` short-circuits before
spawning. -/
def runPatternM (output : AstProcOutput) (pattern : String) (limit : Nat) :
    Except AstError (List AstGrepMatch) :=
  if limit = 0 then .ok []
  else
    match output.stderrLines.find?
      (fun l => strContainsSub l "Pattern contains an ERROR node") with
    | some diag => .error (.patternError pattern (strTrim diag))
    | none =>
      if !output.success && !(output.code == some 1) then
        .error (.toolError "ast-grep exited with non-zero status")
      else
        match output.stdout with
        | .empty => .ok []
        | .arr ms => .ok (ms.take limit)
        | .jsonl entries => .ok (jsonlCollectAux limit [] entries)

/-- `patterns_for_language` from tools/ast_grep.rs. -/
def patternsForLanguage (symbol : String) (language : String) : List String :=
  let needle := strTrim symbol
  if needle.data.isEmpty then ["(identifier) @id"]
  else
    let eqId : String := "(#eq? @id \"" ++ needle ++ "\")"
    let l := strToLower language
    if l = "swift" then
      [ "(function_declaration name: (identifier) @id " ++ eqId ++ ")",
        "(protocol_declaration name: (identifier) @id " ++ eqId ++ ")",
        "(protocol_member_declaration (function_declaration name: (identifier) @id) " ++ eqId ++ ")",
        "(initializer_declaration name: (identifier) @id " ++ eqId ++ ")",
        "(class_declaration body: (member_declaration_list (member_declaration (function_declaration name: (identifier) @id " ++ eqId ++ "))))",
        "(struct_declaration body: (member_declaration_list (member_declaration (function_declaration name: (identifier) @id " ++ eqId ++ "))))",
        "(extension_declaration body: (member_declaration_list (member_declaration (function_declaration name: (identifier) @id " ++ eqId ++ "))))",
        "(actor_declaration body: (member_declaration_list (member_declaration (function_declaration name: (identifier) @id " ++ eqId ++ "))))",
        "(member_access_expression name: (identifier) @id " ++ eqId ++ ")",
        "(function_call_expression function: (identifier) @id " ++ eqId ++ ")",
        "(await_expression (function_call_expression function: (identifier) @id " ++ eqId ++ "))",
        "(attribute attribute_name: (identifier) @id " ++ eqId ++ ")",
        "(extension_declaration protocol_conformance: (identifier) @id " ++ eqId ++ ")",
        "(generic_argument_clause (identifier) @id " ++ eqId ++ ")" ]
    else if l = "typescript" || l = "ts" || l = "tsx" then
      [ "(identifier) @id " ++ eqId,
        "(call_expression function: (identifier) @id " ++ eqId ++ ")",
        "(call_expression function: (member_expression property: (property_identifier) @id " ++ eqId ++ "))",
        "(class_declaration name: (identifier) @id " ++ eqId ++ ")",
        "(interface_declaration name: (identifier) @id " ++ eqId ++ ")",
        "(interface_declaration name: (type_identifier) @id " ++ eqId ++ ")",
        "(type_alias_declaration name: (identifier) @id " ++ eqId ++ ")",
        "(type_alias_declaration name: (type_identifier) @id " ++ eqId ++ ")",
        "(method_definition name: (property_identifier) @id " ++ eqId ++ ")",
        "(lexical_declaration (variable_declarator name: (identifier) @id " ++ eqId ++ ")))",
        "(jsx_opening_element name: (identifier) @id " ++ eqId ++ ")",
        "(lexical_declaration (variable_declarator name: (identifier) @id " ++ eqId ++ " value: (arrow_function)))",
        "(export_statement value: (identifier) @id " ++ eqId ++ ")",
        "(export_statement (export_clause (export_specifier name: (identifier) @id " ++ eqId ++ ")))",
        "(jsx_attribute name: (property_identifier) @id " ++ eqId ++ ")",
        "(binary_expression left: (identifier) @id " ++ eqId ++ " operator: \"satisfies\")" ]
    else if l = "rust" then
      [ "(function_item name: (identifier) @id " ++ eqId ++ ")",
        "(impl_item type: (type_path (path_segment name: (identifier) @id " ++ eqId ++ ")))",
        "(trait_item name: (identifier) @id " ++ eqId ++ ")",
        "(struct_item name: (identifier) @id " ++ eqId ++ ")",
        "(enum_item name: (identifier) @id " ++ eqId ++ ")",
        "(macro_invocation macro: (identifier) @id " ++ eqId ++ ")",
        "(impl_item trait: (trait_ref path: (scoped_identifier path: (identifier) @id " ++ eqId ++ ")))",
        "(impl_item trait: (trait_ref path: (type_identifier) @id " ++ eqId ++ "))" ]
    else
      ["(identifier) @id " ++ eqId]

/-- The inner match-absorption loop of `search_identifier`: skip duplicate
`(path, line)` keys, push new matches, break once `max_matches` is reached
(push first, then check). -/
def absorbMatches (maxMatches : Nat) (agg : List AstGrepMatch)
    (seen : List (String × Nat)) :
    List AstGrepMatch → List AstGrepMatch × List (String × Nat)
  | [] => (agg, seen)
  | m :: rest =>
    let key := (m.path, m.line)
    if key ∈ seen then absorbMatches maxMatches agg seen rest
    else
      let agg' := agg ++ [m]
      let seen' := key :: seen
      if maxMatches ≤ agg'.length then (agg', seen')
      else absorbMatches maxMatches agg' seen' rest

/-- The per-language pattern loop of `search_identifier`: break when the cap
is reached, otherwise run the pattern with the remaining budget; the `?` on
`run_pattern` propagates any error (including `patternError`), discarding
the aggregation. `exec` is the child-process oracle (language, pattern). -/
def runPatternList (exec : String → String → AstProcOutput) (maxMatches : Nat)
    (lang : String) (st : List AstGrepMatch × List (String × Nat)) :
    List String → Except AstError (List AstGrepMatch × List (String × Nat))
  | [] => .ok st
  | pattern :: rest =>
    if maxMatches ≤ st.1.length then .ok st
    else
      match runPatternM (exec lang pattern) pattern (maxMatches - st.1.length) with
      | .error e => .error e
      | .ok ms =>
        runPatternList exec maxMatches lang
          (absorbMatches maxMatches st.1 st.2 ms) rest

/-- The outer language loop of `search_identifier`. -/
def runLangs (exec : String → String → AstProcOutput) (maxMatches : Nat)
    (symbol : String) (st : List AstGrepMatch × List (String × Nat)) :
    List String → Except AstError (List AstGrepMatch × List (String × Nat))
  | [] => .ok st
  | lang :: rest =>
    match runPatternList exec maxMatches lang st
      (patternsForLanguage symbol lang) with
    | .error e => .error e
    | .ok st' => runLangs exec maxMatches symbol st' rest

/-- `AstGrepTool::search_identifier` (tools/ast_grep.rs lines 26–66):
default to `["rust"]` when no language hints are given, aggregate matches
across languages and patterns up to `max_matches`. -/
def searchIdentifier (maxMatches : Nat)
    (exec : String → String → AstProcOutput) (symbol : String)
    (languages : List String) : Except AstError (List AstGrepMatch) :=
  let hints := if languages.isEmpty then ["rust"] else languages
  match runLangs exec maxMatches symbol ([], []) hints with
  | .error e => .error e
  | .ok st => .ok st.1

/-! ## Cycle orchestrator (`SearchEngine::run_cycle`, search.rs) -/

/-- The fields of `SearchConfig` the cycle logic depends on. -/
structure SearchConfigM where
  symbol : String
  languageTokens : List String
  maxMatches : Nat
  useIndex : Bool
  useRga : Bool
  useFd : Bool
  useAst : Bool
  hasLogDir : Bool
deriving Repr

/-- Oracle for every external effect of one cycle: each `Except` field is
the outcome of the corresponding adapter / I/O call, the function fields
are the filesystem reads of the discover stage. -/
structure ToolEnv where
  fdResult : Except String (List String)
  rgScoped : Except String (List RipgrepMatch)
  rgGlobal : Except String (List RipgrepMatch)
  indexCandidates : Except String (List String)
  rgIndexed : Except String (List RipgrepMatch)
  rgaResult : Except String (List RgaMatch)
  astResult : Except String (List AstGrepMatch)
  saveResult : Except String Unit
  logResult : Except String Unit
  fsExists : String → Bool
  isDir : String → Bool
  dirFiles : String → List String
  swiftFiles : List String

/-- The engine-owned mutable state across cycles. -/
structure EngineState where
  seen : List (String × Nat)
  store : PersistentState
  rewardTotal : ℚ

/-- `SearchEngine::is_literal_symbol`. -/
def isLiteralSymbol (s : String) : Bool :=
  let t := trimChars s.data
  !t.isEmpty && t.all (fun c => (c.isAlpha || c.isDigit) || c = '_')

/-- `SearchEngine::discover` (search.rs lines 569–689): fd results, then
symbol hints, then files from the top-3 hinted directories, then Swift
manifest files, each deduplicated by path and filtered by the language
extension filter.  (`env.dirFiles` returns the ≤5 non-hidden regular files
per hinted directory and `env.swiftFiles` the Swift listing; `read_dir`
order is OS-unspecified, so those traversals live in the oracle.) -/
def discover (cfg : SearchConfigM) (env : ToolEnv)
    (store : PersistentState) : List String :=
  let extensions := extensionsForLanguages cfg.languageTokens
  let fdPaths :=
    if cfg.useFd then
      match env.fdResult with
      | .ok ps => ps
      | .error _ => []
    else []
  let hints := hintsForSymbol env.fsExists store cfg.symbol
  let dirs := topDirectories env.isDir store 3
  let dirFiles := dirs.flatMap env.dirFiles
  let swiftPaths :=
    if languagesInclude cfg.languageTokens "swift" then env.swiftFiles else []
  ((fdPaths ++ hints ++ dirFiles ++ swiftPaths).foldl
    (fun (acc : List String × List String) p =>
      if passesExtensionFilter p extensions && !acc.2.contains p then
        (acc.1 ++ [p], p :: acc.2)
      else acc)
    ([], [])).1

/-- `SearchEngine::probe` (search.rs lines 691–721): empty rewrites return
no hits without invoking rg; an rg failure is recovered locally as zero
hits (warn). -/
def probeHits (rewrites : List String)
    (result : Except String (List RipgrepMatch)) (kind : ProbeKind) :
    List SearchHit :=
  if rewrites.isEmpty then []
  else
    match result with
    | .ok ms => ms.map (fun m => SearchHit.fromRipgrep m kind)
    | .error _ => []

/-- `SearchEngine::disambiguate`: no ast tool when disabled; an ast-grep
failure is recovered locally as zero matches (warn). -/
def disambiguateM (cfg : SearchConfigM) (env : ToolEnv) : List AstGrepMatch :=
  if cfg.useAst then
    match env.astResult with
    | .ok ms => ms
    | .error _ => []
  else []

/-- `PersistentState::save` as invoked by `run_cycle`: a no-op when not
dirty; on success the dirty flag clears; a failure only warns (the flag
stays).  The `Bool` reports whether the state file was written. -/
def saveStore (env : ToolEnv) (store : PersistentState) :
    PersistentState × Bool :=
  if store.dirty then
    match env.saveResult with
    | .ok _ => ({ store with dirty := false }, true)
    | .error _ => (store, false)
  else (store, false)

/-- `SearchSummary` from search.rs (timing fields omitted, see header). -/
structure SearchSummaryM where
  cycle : Nat
  symbol : String
  queries : List String
  topHits : List TopHit
  deduped : Nat
  nextActions : List String
  fdCandidates : List String
  astHits : List (String × Nat)
  reward : ℚ
deriving Repr

/-- The JSON-lines log append at the end of a cycle (`log_summary`): a no-op
`Ok` when no log directory is configured, otherwise the outcome of the
filesystem append.  Its error propagates out of `run_cycle` via `?`. -/
def logStep (cfg : SearchConfigM) (env : ToolEnv) : Except String Unit :=
  if cfg.hasLogDir then env.logResult else .ok ()

/-- Shared tail of both cycle paths: `log_summary(&summary).await?` then
`Ok(summary)`. -/
def finishCycle (cfg : SearchConfigM) (env : ToolEnv)
    (r : SearchSummaryM × EngineState × Bool) :
    Except String (SearchSummaryM × EngineState × Bool) :=
  match logStep cfg env with
  | .ok _ => .ok r
  | .error e => .error e

/-- `SearchEngine::try_fast_path` up to (but excluding) the log append:
`none` when the symbol is not literal, rg failed (warn, fall through) or rg
found nothing; otherwise the verified summary built from the global rg
matches. -/
def fastPathOutcome (cfg : SearchConfigM) (env : ToolEnv) (st : EngineState)
    (rewrites : List String) : Option (SearchSummaryM × EngineState × Bool) :=
  if !isLiteralSymbol cfg.symbol then none
  else
    match env.rgGlobal with
    | .error _ => none
    | .ok ms =>
      if ms.isEmpty then none
      else
        let hits := ms.map (fun m => SearchHit.fromRipgrep m .global)
        let vr := verifyModel cfg.symbol st.seen st.store hits [] [] []
        let rewardTotal := st.rewardTotal + vr.outcome.metrics.reward
        let (store', wrote) := saveStore env vr.store
        let summary : SearchSummaryM :=
          { cycle := 1
            symbol := cfg.symbol
            queries := rewrites
            topHits := vr.outcome.topHits
            deduped := vr.outcome.dedupCount
            nextActions := vr.outcome.nextActions
            fdCandidates := []
            astHits := []
            reward := roundTwo rewardTotal }
        some (summary, { seen := vr.seen, store := store',
                         rewardTotal := rewardTotal }, wrote)

/-- Scoped probe plus escalation: the global probe runs only when the
scoped probe produced no hits (search.rs lines 272–290). -/
def escalatedHits (env : ToolEnv) (rewrites : List String) : List SearchHit :=
  if (probeHits rewrites env.rgScoped .scoped).isEmpty then
    probeHits rewrites env.rgGlobal .global
  else probeHits rewrites env.rgScoped .scoped

/-- Index fallback: when still empty and the index is enabled, probe the
index candidates (search.rs lines 292–321). -/
def indexedHits (cfg : SearchConfigM) (env : ToolEnv)
    (rewrites : List String) : List SearchHit :=
  if (escalatedHits env rewrites).isEmpty && cfg.useIndex then
    match env.indexCandidates with
    | .ok cands =>
      if cands.isEmpty then escalatedHits env rewrites
      else escalatedHits env rewrites ++ probeHits rewrites env.rgIndexed .indexed
    | .error _ => escalatedHits env rewrites
  else escalatedHits env rewrites

/-- The hit-gathering stages of the non-fast-path cycle, ending with the
rga content fallback (search.rs lines 323–343). -/
def gatherHits (cfg : SearchConfigM) (env : ToolEnv)
    (rewrites : List String) : List SearchHit :=
  if (indexedHits cfg env rewrites).isEmpty && cfg.useRga then
    match env.rgaResult with
    | .ok ms => indexedHits cfg env rewrites ++ ms.map SearchHit.fromRga
    | .error _ => indexedHits cfg env rewrites
  else indexedHits cfg env rewrites

/-- The non-fast-path stages of `run_cycle` up to (but excluding) the log
append: discover, hit gathering, disambiguate, verify, save. -/
def fullCycleOutcome (cfg : SearchConfigM) (env : ToolEnv) (st : EngineState)
    (rewrites : List String) : SearchSummaryM × EngineState × Bool :=
  let discoverCandidates := discover cfg env st.store
  let hits3 := gatherHits cfg env rewrites
  let astMatches := disambiguateM cfg env
  let vr := verifyModel cfg.symbol st.seen st.store hits3 astMatches
    discoverCandidates discoverCandidates
  let rewardTotal := st.rewardTotal + vr.outcome.metrics.reward
  let (store', wrote) := saveStore env vr.store
  let summary : SearchSummaryM :=
    { cycle := 1
      symbol := cfg.symbol
      queries := rewrites
      topHits := vr.outcome.topHits
      deduped := vr.outcome.dedupCount
      nextActions := vr.outcome.nextActions
      fdCandidates := vr.outcome.fdCandidates
      astHits := vr.outcome.astHits
      reward := roundTwo rewardTotal }
  (summary, { seen := vr.seen, store := store', rewardTotal := rewardTotal },
   wrote)

/-- `SearchEngine::run_cycle` (search.rs lines 253–423): fast path when the
trimmed symbol is a plain identifier, otherwise the five-stage pipeline;
both paths end in the log append, whose error is the only one `run_cycle`
propagates (tool failures, empty stages and hint-save failures are all
recovered locally). -/
def runCycle (cfg : SearchConfigM) (env : ToolEnv) (st : EngineState) :
    Except String (SearchSummaryM × EngineState × Bool) :=
  let rewrites := QueryRewriter.build cfg.symbol cfg.languageTokens
  match fastPathOutcome cfg env st rewrites with
  | some r => finishCycle cfg env r
  | none => finishCycle cfg env (fullCycleOutcome cfg env st rewrites)

/-- A fresh engine (`SearchEngine::new`): empty dedup cache, store loaded
from disk with a clear dirty flag, zero accumulated reward. -/
def freshEngineState (loaded : PersistentStateData) : EngineState :=
  { seen := [], store := { data := loaded, dirty := false }, rewardTotal := 0 }

/-- `search::execute` (search.rs lines 23–27): build a *new* engine and run
one cycle.  No state outlives the call except what was persisted to disk
(the `loaded` snapshot of `state.json`). -/
def executeM (cfg : SearchConfigM) (env : ToolEnv)
    (loaded : PersistentStateData) :
    Except String (SearchSummaryM × EngineState × Bool) :=
  runCycle cfg env (freshEngineState loaded)

/-! ## Service surfaces (service/server.rs, service/http.rs, service/grpc.rs) -/

/-- `SearchExecutor::execute` (service/server.rs lines 120–193): bail with
"symbol is required" before any engine work when the trimmed symbol is
empty; otherwise delegate to `search::execute` (the `runSearch` thunk). -/
def executorExecute (symbol : String)
    (runSearch : Unit → Except String SearchSummaryM) :
    Except String SearchSummaryM :=
  if (strTrim symbol).data.isEmpty then .error "symbol is required"
  else runSearch ()

/-- HTTP statuses of the `/search` handler. -/
inductive HttpStatus where
  | ok200
  | badRequest400
  | internalError500
deriving DecidableEq, Repr

/-- The `POST /search` handler (service/http.rs lines 137–164): its own
blank-symbol 400 guard, then the executor, mapping "symbol is required"
failures to 400 and anything else to 500. -/
def httpSearch (symbol : String)
    (runSearch : Unit → Except String SearchSummaryM) : HttpStatus :=
  if (strTrim symbol).data.isEmpty then .badRequest400
  else
    match executorExecute symbol runSearch with
    | .ok _ => .ok200
    | .error msg =>
      if strContainsSub msg "symbol is required" then .badRequest400
      else .internalError500

/-- gRPC statuses of the `Search` method. -/
inductive GrpcStatus where
  | okStatus
  | invalidArgument
  | internalError
deriving DecidableEq, Repr

/-- The gRPC `search` method (service/grpc.rs lines 38–59): the executor's
"symbol is required" failure maps to invalid-argument, others to internal. -/
def grpcSearch (symbol : String)
    (runSearch : Unit → Except String SearchSummaryM) : GrpcStatus :=
  match executorExecute symbol runSearch with
  | .ok _ => .okStatus
  | .error msg =>
    if strContainsSub msg "symbol is required" then .invalidArgument
    else .internalError

/-- Deduped-hit count of a cycle result (0 for an error). -/
def dedupedOf (r : Except String (SearchSummaryM × EngineState × Bool)) : Nat :=
  match r with
  | .ok (s, _, _) => s.deduped
  | .error _ => 0

/-- Top hits of a cycle result ([] for an error). -/
def topHitsOf (r : Except String (SearchSummaryM × EngineState × Bool)) :
    List TopHit :=
  match r with
  | .ok (s, _, _) => s.topHits
  | .error _ => []

/-- Persisted store data after a cycle (the snapshot the next `execute`
loads from disk); the fallback is the pre-cycle on-disk data. -/
def storeDataOf (r : Except String (SearchSummaryM × EngineState × Bool))
    (fallback : PersistentStateData) : PersistentStateData :=
  match r with
  | .ok (_, st, _) => st.store.data
  | .error _ => fallback

/-! ## Statement-level definitions used by the theorems -/

/-- The total score delta applied by `verify` to one raw hit. -/
def scoreDelta (fdSet : List String) (astSet : List (String × Nat))
    (h : SearchHit) : ℚ :=
  (if h.path ∈ fdSet then 2/10 else 0) +
  (match h.origin with
   | .ripgrep .global => -(5/100)
   | .ripgrep .indexed => 1/10
   | .rga => -(1/10)
   | _ => 0) +
  (if (h.path, h.line) ∈ astSet then 1/2 else 0)

/-- First hit with the given `(path, line)` key in a list. -/
def findWithKey (k : String × Nat) (l : List SearchHit) : Option SearchHit :=
  l.find? (fun h => hitKey h = k)

/-- Non-increasing-score order on hits with finite scores: whenever both
scores are finite, the later one is at most the earlier one. -/
def scoreGeF (a b : SearchHit) : Prop :=
  ∀ qa qb : ℚ, a.score = some qa → b.score = some qb → qb ≤ qa

/-- List carried by a successful adapter outcome ([] for a failure). -/
def exceptList (e : Except String (List α)) : List α :=
  match e with
  | .ok l => l
  | .error _ => []

/-! ### Concrete fixtures used by witnesses and counterexamples -/

/-- Concrete ripgrep match fixture. -/
def mW10 : RipgrepMatch :=
  { path := "src/a.rs", lineNumber := 3, lines := "fn foo()", rawJson := "raw" }

/-- Configuration fixture: literal symbol, default tool flags, no log dir. -/
def cfgW10 : SearchConfigM :=
  { symbol := "foo", languageTokens := [], maxMatches := 20, useIndex := false,
    useRga := false, useFd := true, useAst := false, hasLogDir := false }

/-- Environment fixture: one global rg match, everything else trivial. -/
def envW10 : ToolEnv :=
  { fdResult := .ok [], rgScoped := .ok [], rgGlobal := .ok [mW10],
    indexCandidates := .ok [], rgIndexed := .ok [], rgaResult := .ok [],
    astResult := .ok [], saveResult := .ok (), logResult := .ok (),
    fsExists := fun _ => false, isDir := fun _ => false,
    dirFiles := fun _ => [], swiftFiles := [] }

/-- Fresh engine on an empty persisted store. -/
def stW10 : EngineState := freshEngineState { symbolHits := [], directoryScores := [] }

/-- The verify result of the fast-path cycle on the fixtures. -/
def vrW10 : VerifyResult :=
  verifyModel cfgW10.symbol stW10.seen stW10.store
    [SearchHit.fromRipgrep mW10 .global] [] [] []

/-- The full cycle result on the fixtures, written as `run_cycle` builds it. -/
def rW10 : SearchSummaryM × EngineState × Bool :=
  ({ cycle := 1
     symbol := cfgW10.symbol
     queries := QueryRewriter.build cfgW10.symbol cfgW10.languageTokens
     topHits := vrW10.outcome.topHits
     deduped := vrW10.outcome.dedupCount
     nextActions := vrW10.outcome.nextActions
     fdCandidates := []
     astHits := []
     reward := roundTwo (stW10.rewardTotal + vrW10.outcome.metrics.reward) },
   { seen := vrW10.seen
     store := (saveStore envW10 vrW10.store).1
     rewardTotal := stW10.rewardTotal + vrW10.outcome.metrics.reward },
   (saveStore envW10 vrW10.store).2)

/-- The single top hit produced on the fixtures. -/
def tW10 : TopHit := toTopHit (adjustHit [] [] (SearchHit.fromRipgrep mW10 .global))

/-- Single-hit fixture for the metrics counterexample and witness. -/
def hW4 : SearchHit :=
  { path := "p", line := 1, snippet := "s", score := some 1,
    origin := .ripgrep .scoped }

/-- Parse oracle fixture for the rg collection loop: every line parses. -/
def parseW6 : String → Option RgMatchData :=
  fun l => some { path := l, lineNumber := 1, lines := l }

/-- ast-grep child oracle fixture: clean exit with empty stdout. -/
def execW6 : String → String → AstProcOutput :=
  fun _ _ =>
    { stderrLines := [], success := true, code := some 0, stdout := .empty }

/-- ast-grep child oracle fixture for C7: the first rust pattern for
`"foo"` yields one match, every other pattern reports an ERROR-node
diagnostic on stderr. -/
def execW7 : String → String → AstProcOutput :=
  fun _ pattern =>
    if pattern = "(function_item name: (identifier) @id (#eq? @id \"foo\"))"
    then
      { stderrLines := [], success := true, code := some 0,
        stdout := .arr [{ path := "src/a.rs", line := 2 }] }
    else
      { stderrLines := ["Pattern contains an ERROR node in rule"],
        success := false, code := some 2, stdout := .empty }

/-- The first rust pattern emitted by `patterns_for_language` for `"foo"`. -/
def patW7a : String := "(function_item name: (identifier) @id (#eq? @id \"foo\"))"

/-- The second rust pattern emitted by `patterns_for_language` for `"foo"`. -/
def patW7b : String :=
  "(impl_item type: (type_path (path_segment name: (identifier) @id (#eq? @id \"foo\"))))"

/-- Config fixture with a whitespace-only symbol (the S6 scenario) on the
CLI surface: no log directory configured. -/
def cfgW8 : SearchConfigM :=
  { symbol := "   ", languageTokens := [], maxMatches := 20, useIndex := false,
    useRga := false, useFd := false, useAst := false, hasLogDir := false }

/-- On-disk state snapshot for the successive-`execute` scenario. -/
def dW9 : PersistentStateData := { symbolHits := [], directoryScores := [] }

/-- First `execute` call of the S5 scenario. -/
def rW9a : Except String (SearchSummaryM × EngineState × Bool) :=
  executeM cfgW10 envW10 dW9

/-- Second `execute` call with identical arguments, loading the state the
first call persisted. -/
def rW9b : Except String (SearchSummaryM × EngineState × Bool) :=
  executeM cfgW10 envW10 (storeDataOf rW9a dW9)

/-!
# Theorems

Helper lemmas first, then one named theorem per claim (with witnesses and
counterexamples where required).
-/

/-! ## Query rewriter lemmas -/

theorem mem_dedupStringsAux {q : String} :
    ∀ {seen l : List String}, q ∈ dedupStringsAux seen l → q ∈ l := by
  intro seen l
  induction l generalizing seen with
  | nil => intro h; exact absurd h (by simp [dedupStringsAux])
  | cons x rest ih =>
    intro h
    by_cases hx : x ∈ seen
    · simp only [dedupStringsAux, if_pos hx] at h
      exact List.mem_cons_of_mem _ (ih h)
    · simp only [dedupStringsAux, if_neg hx, List.mem_cons] at h
      rcases h with h | h
      · exact h ▸ List.mem_cons_self _ _
      · exact List.mem_cons_of_mem _ (ih h)

theorem mem_dedupQueries {q : String} {l : List String} :
    q ∈ dedupQueries l → q ∈ l :=
  mem_dedupStringsAux

namespace QueryRewriter

theorem unescape_escapeChars : ∀ cs : List Char,
    unescapeLit (escapeChars cs) = some cs := by
  intro cs
  induction cs with
  | nil => rfl
  | cons c rest ih =>
    by_cases hm : isMetaChar c = true
    · rw [escapeChars, if_pos hm, unescapeLit, if_pos rfl, ih]
      rfl
    · have hne : ¬(c = '\\') := by
        intro hc
        subst hc
        simp [isMetaChar] at hm
      rw [escapeChars, if_neg hm, unescapeLit.eq_def]
      simp only [if_neg hne, if_neg hm, ih, Option.map_some']

theorem mem_build_shape {symbol : String} {languages : List String}
    {q : String} (hq : q ∈ build symbol languages) :
    ∃ a b : String, q = mkQuery (strTrim symbol) (a, b) := by
  simp only [build] at hq
  split at hq
  · exact absurd hq (List.not_mem_nil q)
  · have hq' := mem_dedupQueries hq
    rcases List.mem_append.mp hq' with hb | hx
    · rcases List.mem_map.mp hb with ⟨ab, _, rfl⟩
      exact ⟨ab.1, ab.2, rfl⟩
    · rcases List.mem_flatMap.mp hx with ⟨lang, _, hmem⟩
      rw [buildTypescriptVariants, buildSwiftVariants, buildRustVariants] at hmem
      split at hmem
      · rcases List.mem_map.mp hmem with ⟨ab, _, rfl⟩
        exact ⟨ab.1, ab.2, rfl⟩
      · split at hmem
        · rcases List.mem_map.mp hmem with ⟨ab, _, rfl⟩
          exact ⟨ab.1, ab.2, rfl⟩
        · split at hmem
          · rcases List.mem_map.mp hmem with ⟨ab, _, rfl⟩
            exact ⟨ab.1, ab.2, rfl⟩
          · exact absurd hmem (List.not_mem_nil q)

end QueryRewriter

theorem strData_middle (a s b : String) :
    s.data <:+: (a ++ (s ++ b)).data :=
  ⟨a.data, b.data, by simp [String.data_append, List.append_assoc]⟩

/-- C5: every query emitted by the query rewriter is the `escape_literal`
image of its template string, so under the standard escaped-regex reading
(`unescapeLit`) it denotes exactly the template's literal characters — and
the trimmed symbol occurs literally inside that template.  In particular no
metacharacter of the symbol is ever interpreted as regex syntax. -/
theorem queryRewriter_escapes_literally (symbol : String)
    (languages : List String) (q : String)
    (hq : q ∈ QueryRewriter.build symbol languages) :
    ∃ t : String, q = QueryRewriter.escapeLiteral t ∧
      QueryRewriter.unescapeLit q.data = some t.data ∧
      (strTrim symbol).data <:+: t.data := by
  rcases QueryRewriter.mem_build_shape hq with ⟨a, b, rfl⟩
  refine ⟨a ++ (strTrim symbol ++ b), rfl, ?_, strData_middle _ _ _⟩
  exact QueryRewriter.unescape_escapeChars _

/-- Witness for C5 at the concrete symbol `"foo.bar("`: the first emitted
query is its escaped form, and the theorem applies to it. -/
theorem queryRewriter_escapes_literally_witness :
    ("foo\\.bar\\(" ∈ QueryRewriter.build "foo.bar(" []) ∧
    ∃ t : String, "foo\\.bar\\(" = QueryRewriter.escapeLiteral t ∧
      QueryRewriter.unescapeLit ("foo\\.bar\\(" : String).data = some t.data ∧
      (strTrim "foo.bar(").data <:+: t.data := by
  have hmem : ("foo\\.bar\\(" ∈ QueryRewriter.build "foo.bar(" []) := by decide
  exact ⟨hmem, queryRewriter_escapes_literally "foo.bar(" [] _ hmem⟩

/-! ## Scoring arithmetic (claim C2) -/

/-- C2: starting scores are 1.0 for ripgrep-derived hits and 0.9 for rga
hits, and `verify`'s per-hit adjustment adds exactly +0.2 for an fd-set
path, −0.05 for rg-global, +0.1 for rg-indexed, −0.1 for rga, and +0.5 for
an ast-set key — in which case the origin is relabelled `ast-grep`.  Path
and line are never changed. -/
theorem verify_score_adjustment (fdSet : List String)
    (astSet : List (String × Nat)) (h : SearchHit) (rm : RipgrepMatch)
    (gm : RgaMatch) (k : ProbeKind) :
    (SearchHit.fromRipgrep rm k).score = some 1 ∧
    (SearchHit.fromRga gm).score = some (9/10) ∧
    (adjustHit fdSet astSet h).score =
      h.score.map (fun q => q + scoreDelta fdSet astSet h) ∧
    (adjustHit fdSet astSet h).origin =
      (if (h.path, h.line) ∈ astSet then HitOrigin.astGrep else h.origin) ∧
    (adjustHit fdSet astSet h).path = h.path ∧
    (adjustHit fdSet astSet h).line = h.line := by
  refine ⟨rfl, rfl, ?_, ?_, ?_, ?_⟩
  · rcases h with ⟨path, line, snippet, score, origin⟩
    by_cases hfd : path ∈ fdSet <;>
      by_cases hast : (path, line) ∈ astSet <;>
        rcases origin with k' | _ | _ <;>
          first
            | (rcases k' with _ | _ | _ <;>
                cases score <;>
                  simp [adjustHit, addF, scoreDelta, hfd, hast] <;> ring)
            | (cases score <;>
                simp [adjustHit, addF, scoreDelta, hfd, hast] <;> ring)
  · rcases h with ⟨path, line, snippet, score, origin⟩
    by_cases hast : (path, line) ∈ astSet <;> simp [adjustHit, hast]
  · rcases h with ⟨path, line, snippet, score, origin⟩
    by_cases hast : (path, line) ∈ astSet <;> simp [adjustHit, hast]
  · rcases h with ⟨path, line, snippet, score, origin⟩
    by_cases hast : (path, line) ∈ astSet <;> simp [adjustHit, hast]

/-! ## Score comparison lemmas -/

theorem qcmp_eq_gt_iff {x y : ℚ} : qcmp x y = .gt ↔ y < x := by
  constructor
  · intro hg
    unfold qcmp at hg
    split at hg
    · exact absurd hg (by simp)
    · split at hg
      · exact absurd hg (by simp)
      · rename_i h1 h2
        rcases lt_trichotomy x y with h | h | h
        · exact absurd h h1
        · exact absurd h h2
        · exact h
  · intro hlt
    unfold qcmp
    rw [if_neg (not_lt_of_gt hlt), if_neg (ne_of_gt hlt)]

theorem sgtF_iff {a b : FScore} :
    sgtF a b = true ↔ ∃ qa qb : ℚ, a = some qa ∧ b = some qb ∧ qb < qa := by
  cases a with
  | none => simp [sgtF, fpartialCmp]
  | some qa =>
    cases b with
    | none => simp [sgtF, fpartialCmp]
    | some qb =>
      simp only [sgtF, fpartialCmp]
      constructor
      · intro h
        split at h
        · rename_i heq
          injection heq with heq'
          exact ⟨qa, qb, rfl, rfl, qcmp_eq_gt_iff.mp heq'⟩
        · exact absurd h (by simp)
      · rintro ⟨qa', qb', h1, h2, hlt⟩
        injection h1 with h1
        injection h2 with h2
        subst h1; subst h2
        rw [qcmp_eq_gt_iff.mpr hlt]

theorem sgtF_irrefl (s : FScore) : sgtF s s = false := by
  cases hs : sgtF s s
  · rfl
  · rcases sgtF_iff.mp hs with ⟨qa, qb, h1, h2, hlt⟩
    rw [h1] at h2
    injection h2 with h2
    exact absurd (h2 ▸ hlt) (lt_irrefl qa)

theorem sgtF_trans {a b c : FScore} (hab : sgtF a b = true)
    (hbc : sgtF b c = true) : sgtF a c = true := by
  rcases sgtF_iff.mp hab with ⟨qa, qb, ha, hb, h1⟩
  rcases sgtF_iff.mp hbc with ⟨qb', qc, hb', hc, h2⟩
  rw [hb] at hb'
  injection hb' with hb'
  exact sgtF_iff.mpr ⟨qa, qc, ha, hc, (hb' ▸ h2).trans h1⟩

theorem cmpHits_of_nan {a b : SearchHit}
    (h : a.score = none ∨ b.score = none) : cmpHits a b = .eq := by
  unfold cmpHits fpartialCmp
  rcases h with h | h <;> rw [h] <;> cases b.score <;> cases a.score <;> rfl

theorem hitLeR_of_finite {a b : SearchHit} {qa qb : ℚ}
    (ha : a.score = some qa) (hb : b.score = some qb) :
    hitLeR a b ↔ qb ≤ qa := by
  unfold hitLeR cmpHits fpartialCmp
  rw [ha, hb]
  simp only [Option.getD_some]
  constructor
  · intro h
    by_contra hlt
    exact h (qcmp_eq_gt_iff.mpr (lt_of_not_ge hlt))
  · intro h hgt
    exact absurd (qcmp_eq_gt_iff.mp hgt) (not_lt_of_ge h)

/-! ## Merge-by-key lemmas -/

theorem mem_insertMerged {acc : List SearchHit} {h m : SearchHit}
    (hm : m ∈ insertMerged acc h) : m ∈ acc ∨ m = h := by
  unfold insertMerged at hm
  split at hm
  · rcases List.mem_map.mp hm with ⟨e, he, hme⟩
    by_cases hc : hitKey e = hitKey h ∧ sgtF h.score e.score = true
    · rw [if_pos hc] at hme
      exact Or.inr hme.symm
    · rw [if_neg hc] at hme
      exact Or.inl (hme ▸ he)
  · rcases List.mem_append.mp hm with h' | h'
    · exact Or.inl h'
    · exact Or.inr (List.mem_singleton.mp h')

theorem keys_insertMerged_of_any {acc : List SearchHit} {h : SearchHit}
    (hany : acc.any (fun e => hitKey e = hitKey h) = true) :
    (insertMerged acc h).map hitKey = acc.map hitKey := by
  unfold insertMerged
  rw [if_pos hany, List.map_map]
  apply List.map_congr_left
  intro e _
  simp only [Function.comp_apply]
  by_cases hc : hitKey e = hitKey h ∧ sgtF h.score e.score = true
  · rw [if_pos hc]
    exact hc.1.symm
  · rw [if_neg hc]

theorem keys_insertMerged_of_not_any {acc : List SearchHit} {h : SearchHit}
    (hany : ¬ acc.any (fun e => hitKey e = hitKey h) = true) :
    (insertMerged acc h).map hitKey = acc.map hitKey ++ [hitKey h] := by
  unfold insertMerged
  rw [if_neg hany, List.map_append]
  rfl

theorem not_any_iff_key_not_mem {acc : List SearchHit} {h : SearchHit} :
    (¬ acc.any (fun e => hitKey e = hitKey h) = true) ↔
      hitKey h ∉ acc.map hitKey := by
  rw [List.any_eq_true]
  constructor
  · intro hna hmem
    rcases List.mem_map.mp hmem with ⟨e, he, hke⟩
    exact hna ⟨e, he, by simp [hke]⟩
  · rintro hnm ⟨e, he, hke⟩
    simp only [decide_eq_true_eq] at hke
    exact hnm (List.mem_map.mpr ⟨e, he, hke⟩)

theorem insertMerged_keys_nodup {acc : List SearchHit} {h : SearchHit}
    (hn : (acc.map hitKey).Nodup) :
    ((insertMerged acc h).map hitKey).Nodup := by
  by_cases hany : acc.any (fun e => hitKey e = hitKey h) = true
  · rw [keys_insertMerged_of_any hany]
    exact hn
  · rw [keys_insertMerged_of_not_any hany]
    refine List.Nodup.append hn (List.nodup_singleton _) ?_
    rw [List.disjoint_singleton]
    exact not_any_iff_key_not_mem.mp hany

theorem no_beat_replacement {p h e : FScore} (h1 : sgtF p e = false)
    (h2 : sgtF h e = true) : sgtF p h = false := by
  cases hx : sgtF p h
  · rfl
  · exact absurd (sgtF_trans hx h2) (by simp [h1])

theorem mergeFold_invariant :
    ∀ (rest acc processed : List SearchHit),
      (acc.map hitKey).Nodup →
      (∀ e ∈ acc, e ∈ processed) →
      (∀ e ∈ acc, ∀ p ∈ processed,
        hitKey p = hitKey e → sgtF p.score e.score = false) →
      (∀ p ∈ processed, hitKey p ∈ acc.map hitKey) →
      (((rest.foldl insertMerged acc).map hitKey).Nodup ∧
       (∀ e ∈ rest.foldl insertMerged acc, e ∈ processed ++ rest) ∧
       (∀ e ∈ rest.foldl insertMerged acc, ∀ p ∈ processed ++ rest,
          hitKey p = hitKey e → sgtF p.score e.score = false) ∧
       (∀ p ∈ processed ++ rest,
          hitKey p ∈ (rest.foldl insertMerged acc).map hitKey)) := by
  intro rest
  induction rest with
  | nil =>
    intro acc processed h1 h2 h3 h4
    simp only [List.foldl_nil, List.append_nil]
    exact ⟨h1, h2, h3, h4⟩
  | cons h rest' ih =>
    intro acc processed h1 h2 h3 h4
    have step := ih (insertMerged acc h) (processed ++ [h])
      (insertMerged_keys_nodup h1)
      (by
        intro e he
        rcases mem_insertMerged he with he' | he'
        · exact List.mem_append_left _ (h2 e he')
        · rw [he']
          exact List.mem_append_right _ (List.mem_singleton_self h))
      (by
        intro e he p hp hkey
        unfold insertMerged at he
        split at he
        · rename_i hany
          rcases List.mem_map.mp he with ⟨e₀, he₀, hee⟩
          by_cases hc : hitKey e₀ = hitKey h ∧ sgtF h.score e₀.score = true
          · rw [if_pos hc] at hee
            subst hee
            rcases List.mem_append.mp hp with hp' | hp'
            · have hkey₀ : hitKey p = hitKey e₀ := by rw [hkey, hc.1]
              exact no_beat_replacement (h3 e₀ he₀ p hp' hkey₀) hc.2
            · rw [List.mem_singleton.mp hp']
              exact sgtF_irrefl _
          · rw [if_neg hc] at hee
            subst hee
            rcases List.mem_append.mp hp with hp' | hp'
            · exact h3 e₀ he₀ p hp' hkey
            · have hph : p = h := List.mem_singleton.mp hp'
              subst hph
              cases hse : sgtF p.score e₀.score
              · rfl
              · exact absurd ⟨hkey.symm, hse⟩ hc
        · rename_i hany
          have hk := not_any_iff_key_not_mem.mp hany
          rcases List.mem_append.mp he with he' | he'
          · rcases List.mem_append.mp hp with hp' | hp'
            · exact h3 e he' p hp' hkey
            · have hph : p = h := List.mem_singleton.mp hp'
              subst hph
              have hmem : hitKey p ∈ acc.map hitKey :=
                List.mem_map.mpr ⟨e, he', hkey.symm⟩
              exact absurd hmem hk
          · have heh : e = h := List.mem_singleton.mp he'
            subst heh
            rcases List.mem_append.mp hp with hp' | hp'
            · have hmem := h4 p hp'
              rw [hkey] at hmem
              exact absurd hmem hk
            · rw [List.mem_singleton.mp hp']
              exact sgtF_irrefl _)
      (by
        intro p hp
        rcases List.mem_append.mp hp with hp' | hp'
        · by_cases hany : acc.any (fun e => hitKey e = hitKey h) = true
          · rw [keys_insertMerged_of_any hany]
            exact h4 p hp'
          · rw [keys_insertMerged_of_not_any hany]
            exact List.mem_append_left _ (h4 p hp')
        · rw [List.mem_singleton.mp hp']
          by_cases hany : acc.any (fun e => hitKey e = hitKey h) = true
          · rw [keys_insertMerged_of_any hany]
            rcases List.any_eq_true.mp hany with ⟨e, he, hke⟩
            simp only [decide_eq_true_eq] at hke
            exact hke ▸ List.mem_map.mpr ⟨e, he, rfl⟩
          · rw [keys_insertMerged_of_not_any hany]
            exact List.mem_append_right _ (List.mem_singleton_self _))
    refine ⟨step.1, ?_, ?_, ?_⟩
    · intro e he
      have := step.2.1 e he
      simpa using this
    · intro e he p hp hkey
      exact step.2.2.1 e he p (by simpa using hp) hkey
    · intro p hp
      exact step.2.2.2 p (by simpa using hp)

theorem mergeByKey_keys_nodup (l : List SearchHit) :
    ((mergeByKey l).map hitKey).Nodup :=
  (mergeFold_invariant l [] [] (by simp) (by simp) (by simp) (by simp)).1

theorem mergeByKey_mem_and_max {l : List SearchHit} {m : SearchHit}
    (hm : m ∈ mergeByKey l) :
    m ∈ l ∧ ∀ p ∈ l, hitKey p = hitKey m → sgtF p.score m.score = false := by
  have inv := mergeFold_invariant l [] [] (by simp) (by simp) (by simp) (by simp)
  refine ⟨by simpa using inv.2.1 m hm, ?_⟩
  intro p hp hk
  exact inv.2.2.1 m hm p (by simpa using hp) hk

theorem mergeByKey_covers {l : List SearchHit} {h : SearchHit} (hh : h ∈ l) :
    ∃ m ∈ mergeByKey l, hitKey m = hitKey h := by
  have inv := mergeFold_invariant l [] [] (by simp) (by simp) (by simp) (by simp)
  have := inv.2.2.2 h (by simpa using hh)
  rcases List.mem_map.mp this with ⟨m, hm, hk⟩
  exact ⟨m, hm, hk⟩

/-! ## First-observed ties (find lemmas over the merge fold) -/

theorem findWithKey_map_keyPreserving {k : String × Nat}
    {f : SearchHit → SearchHit} (hf : ∀ e, hitKey (f e) = hitKey e) :
    ∀ l : List SearchHit,
      findWithKey k (l.map f) = (findWithKey k l).map f := by
  intro l
  induction l with
  | nil => rfl
  | cons x xs ih =>
    unfold findWithKey at *
    by_cases hx : hitKey x = k
    · rw [List.map_cons, List.find?_cons_of_pos _ (by simp [hf, hx]),
        List.find?_cons_of_pos _ (by simp [hx]), Option.map_some']
    · rw [List.map_cons, List.find?_cons_of_neg _ (by simp [hf, hx]),
        List.find?_cons_of_neg _ (by simp [hx]), ih]

theorem findWithKey_append (k : String × Nat) (l₁ l₂ : List SearchHit) :
    findWithKey k (l₁ ++ l₂) = (findWithKey k l₁).or (findWithKey k l₂) := by
  unfold findWithKey
  exact List.find?_append

theorem findWithKey_key {k : String × Nat} {l : List SearchHit}
    {e : SearchHit} (h : findWithKey k l = some e) : hitKey e = k := by
  have := List.find?_some h
  simpa using this

theorem findWithKey_none_iff {k : String × Nat} {l : List SearchHit} :
    findWithKey k l = none ↔ ∀ e ∈ l, hitKey e ≠ k := by
  unfold findWithKey
  rw [List.find?_eq_none]
  simp

theorem mergeFold_find (k : String × Nat) (h₀ : SearchHit) :
    ∀ (rest acc : List SearchHit),
      (∀ p ∈ rest, hitKey p = k → sgtF p.score h₀.score = false) →
      ((findWithKey k acc = none ∧ findWithKey k rest = some h₀) ∨
        findWithKey k acc = some h₀) →
      findWithKey k (rest.foldl insertMerged acc) = some h₀ := by
  intro rest
  induction rest with
  | nil =>
    intro acc _ hdisj
    rcases hdisj with ⟨_, hfr⟩ | hacc
    · exact absurd hfr (by simp [findWithKey])
    · simpa using hacc
  | cons h rest' ih =>
    intro acc hno hdisj
    simp only [List.foldl_cons]
    by_cases hkh : hitKey h = k
    · rcases hdisj with ⟨haccn, hfr⟩ | hacc
      · have hh₀ : h₀ = h := by
          unfold findWithKey at hfr
          rw [List.find?_cons_of_pos _ (by simp [hkh])] at hfr
          injection hfr with hfr
          exact hfr.symm
        have hany : ¬ acc.any (fun e => hitKey e = hitKey h) = true := by
          rw [not_any_iff_key_not_mem, hkh]
          intro hmem
          rcases List.mem_map.mp hmem with ⟨e, he, hke⟩
          exact (findWithKey_none_iff.mp haccn e he) hke
        have hins : insertMerged acc h = acc ++ [h] := by
          unfold insertMerged
          rw [if_neg hany]
        rw [hins]
        apply ih
        · intro p hp hpk
          exact hno p (List.mem_cons_of_mem _ hp) hpk
        · right
          rw [findWithKey_append, haccn, Option.none_or]
          unfold findWithKey
          rw [List.find?_cons_of_pos _ (by simp [hkh]), hh₀]
      · have hsgt : sgtF h.score h₀.score = false :=
          hno h (List.mem_cons_self _ _) hkh
        have he₀mem : h₀ ∈ acc := List.mem_of_find?_eq_some hacc
        have hk₀ : hitKey h₀ = k := findWithKey_key hacc
        have hany : acc.any (fun e => hitKey e = hitKey h) = true := by
          rw [List.any_eq_true]
          exact ⟨h₀, he₀mem, by simp [hk₀, hkh]⟩
        have hf : ∀ e, hitKey
            (if hitKey e = hitKey h ∧ sgtF h.score e.score = true then h
             else e) = hitKey e := by
          intro e
          by_cases hc : hitKey e = hitKey h ∧ sgtF h.score e.score = true
          · rw [if_pos hc]
            exact hc.1.symm
          · rw [if_neg hc]
        have hins : insertMerged acc h = acc.map
            (fun e => if hitKey e = hitKey h ∧ sgtF h.score e.score = true
              then h else e) := by
          unfold insertMerged
          rw [if_pos hany]
        rw [hins]
        apply ih
        · intro p hp hpk
          exact hno p (List.mem_cons_of_mem _ hp) hpk
        · right
          rw [findWithKey_map_keyPreserving hf, hacc, Option.map_some']
          congr 1
          rw [if_neg]
          rintro ⟨_, hsg⟩
          rw [hsgt] at hsg
          exact absurd hsg (by simp)
    · have hf : ∀ e, hitKey
          (if hitKey e = hitKey h ∧ sgtF h.score e.score = true then h
           else e) = hitKey e := by
        intro e
        by_cases hc : hitKey e = hitKey h ∧ sgtF h.score e.score = true
        · rw [if_pos hc]
          exact hc.1.symm
        · rw [if_neg hc]
      have hpres : findWithKey k (insertMerged acc h) = findWithKey k acc := by
        unfold insertMerged
        by_cases hany : acc.any (fun e => hitKey e = hitKey h) = true
        · rw [if_pos hany, findWithKey_map_keyPreserving hf]
          cases hfa : findWithKey k acc with
          | none => rfl
          | some e =>
            rw [Option.map_some']
            congr 1
            have hke : hitKey e = k := findWithKey_key hfa
            rw [if_neg]
            rintro ⟨hkeh, _⟩
            exact hkh (hkeh ▸ hke)
        · rw [if_neg hany, findWithKey_append]
          have : findWithKey k [h] = none := by
            unfold findWithKey
            rw [List.find?_cons_of_neg _ (by simp [hkh])]
            rfl
          rw [this, Option.or_none]
      apply ih
      · intro p hp hpk
        exact hno p (List.mem_cons_of_mem _ hp) hpk
      · rcases hdisj with ⟨haccn, hfr⟩ | hacc
        · left
          refine ⟨by rw [hpres]; exact haccn, ?_⟩
          unfold findWithKey at hfr ⊢
          rw [List.find?_cons_of_neg _ (by simp [hkh])] at hfr
          exact hfr
        · right
          rw [hpres]
          exact hacc

theorem mergeByKey_ties_first {l : List SearchHit} {k : String × Nat}
    {h₀ : SearchHit} (hfirst : findWithKey k l = some h₀)
    (hno : ∀ p ∈ l, hitKey p = k → sgtF p.score h₀.score = false) :
    findWithKey k (mergeByKey l) = some h₀ :=
  mergeFold_find k h₀ l [] hno (Or.inl ⟨rfl, hfirst⟩)

/-! ## Sort lemmas -/

theorem sortHits_perm (l : List SearchHit) : List.Perm (sortHits l) l :=
  List.perm_insertionSort _ _

theorem scoreGeF_of_hitLeR {a b : SearchHit} (h : hitLeR a b) : scoreGeF a b := by
  intro qa qb ha hb
  exact (hitLeR_of_finite ha hb).mp h

theorem scoreGeF_of_not_hitLeR {a b : SearchHit} (h : ¬ hitLeR a b) :
    scoreGeF b a := by
  intro qb qa hb ha
  by_contra hlt
  exact h ((hitLeR_of_finite ha hb).mpr (le_of_not_le hlt))

theorem orderedInsert_pairwise_scoreGe (a : SearchHit)
    (ha : a.score.isSome = true) :
    ∀ l : List SearchHit, (∀ x ∈ l, x.score.isSome = true) →
      l.Pairwise scoreGeF →
      (l.orderedInsert hitLeR a).Pairwise scoreGeF := by
  intro l
  induction l with
  | nil =>
    intro _ _
    simp [List.orderedInsert]
  | cons b l ih =>
    intro hfin hp
    rw [List.orderedInsert]
    rcases List.pairwise_cons.mp hp with ⟨hbrel, hpl⟩
    by_cases hab : hitLeR a b
    · rw [if_pos hab]
      refine List.pairwise_cons.mpr ⟨?_, hp⟩
      intro y hy
      rcases List.mem_cons.mp hy with rfl | hyl
      · exact scoreGeF_of_hitLeR hab
      · intro qa qy haq hyq
        rcases Option.isSome_iff_exists.mp (hfin b (List.mem_cons_self _ _))
          with ⟨qb, hqb⟩
        exact le_trans (hbrel y hyl qb qy hqb hyq)
          ((scoreGeF_of_hitLeR hab) qa qb haq hqb)
    · rw [if_neg hab]
      refine List.pairwise_cons.mpr ⟨?_, ?_⟩
      · intro y hy
        rcases (List.mem_orderedInsert _).mp hy with rfl | hyl
        · exact scoreGeF_of_not_hitLeR hab
        · exact hbrel y hyl
      · exact ih (fun x hx => hfin x (List.mem_cons_of_mem _ hx)) hpl

theorem sortHits_pairwise {l : List SearchHit}
    (hfin : ∀ h ∈ l, h.score.isSome = true) :
    (sortHits l).Pairwise scoreGeF := by
  unfold sortHits
  induction l with
  | nil => simp [List.insertionSort]
  | cons a l ih =>
    rw [List.insertionSort]
    refine orderedInsert_pairwise_scoreGe a
      (hfin a (List.mem_cons_self _ _)) _ ?_
      (ih (fun x hx => hfin x (List.mem_cons_of_mem _ hx)))
    intro x hx
    have : x ∈ l := by
      have hperm := List.perm_insertionSort hitLeR l
      exact hperm.mem_iff.mp hx
    exact hfin x (List.mem_cons_of_mem _ this)

/-! ## Cross-cycle dedup cache lemmas (`SearchCache::retain_new`) -/

theorem retainNew_kept {seen : List (String × Nat)} :
    ∀ {l : List SearchHit} {h' : SearchHit},
      h' ∈ (retainNew seen l).1 → h' ∈ l ∧ hitKey h' ∉ seen := by
  intro l
  induction l generalizing seen with
  | nil =>
    intro h' hm
    exact absurd hm (by simp [retainNew])
  | cons h rest ih =>
    intro h' hm
    by_cases hc : hitKey h ∈ seen
    · rw [retainNew, if_pos hc] at hm
      rcases ih hm with ⟨h1, h2⟩
      exact ⟨List.mem_cons_of_mem _ h1, h2⟩
    · rw [retainNew, if_neg hc] at hm
      rcases List.mem_cons.mp hm with rfl | hm'
      · exact ⟨List.mem_cons_self _ _, hc⟩
      · rcases ih hm' with ⟨h1, h2⟩
        refine ⟨List.mem_cons_of_mem _ h1, fun hmem => h2 ?_⟩
        exact List.mem_cons_of_mem _ hmem

theorem retainNew_keys_nodup :
    ∀ (l : List SearchHit) (seen : List (String × Nat)),
      ((retainNew seen l).1.map hitKey).Nodup := by
  intro l
  induction l with
  | nil =>
    intro seen
    simp [retainNew]
  | cons h rest ih =>
    intro seen
    by_cases hc : hitKey h ∈ seen
    · rw [retainNew, if_pos hc]
      exact ih seen
    · rw [retainNew, if_neg hc]
      rw [List.map_cons, List.nodup_cons]
      refine ⟨?_, ih _⟩
      intro hmem
      rcases List.mem_map.mp hmem with ⟨e, he, hke⟩
      rcases retainNew_kept he with ⟨_, hnot⟩
      exact hnot (hke ▸ List.mem_cons_self _ _)

theorem retainNew_all_seen :
    ∀ (l : List SearchHit) (seen : List (String × Nat)),
      (∀ h ∈ l, hitKey h ∈ seen) → (retainNew seen l).1 = [] := by
  intro l
  induction l with
  | nil =>
    intro seen _
    rfl
  | cons h rest ih =>
    intro seen hall
    rw [retainNew, if_pos (hall h (List.mem_cons_self _ _))]
    exact ih seen (fun x hx => hall x (List.mem_cons_of_mem _ hx))

theorem retainNew_seen_superset :
    ∀ (l : List SearchHit) (seen : List (String × Nat)),
      (∀ h ∈ l, hitKey h ∈ (retainNew seen l).2) ∧
      (∀ x ∈ seen, x ∈ (retainNew seen l).2) := by
  intro l
  induction l with
  | nil =>
    intro seen
    exact ⟨by simp, by simp [retainNew]⟩
  | cons h rest ih =>
    intro seen
    by_cases hc : hitKey h ∈ seen
    · rw [retainNew, if_pos hc]
      refine ⟨?_, (ih seen).2⟩
      intro x hx
      rcases List.mem_cons.mp hx with rfl | hx'
      · exact (ih seen).2 _ hc
      · exact (ih seen).1 x hx'
    · rw [retainNew, if_neg hc]
      refine ⟨?_, ?_⟩
      · intro x hx
        rcases List.mem_cons.mp hx with rfl | hx'
        · exact (ih (hitKey x :: seen)).2 _ (List.mem_cons_self _ _)
        · exact (ih (hitKey h :: seen)).1 x hx'
      · intro x hx
        exact (ih (hitKey h :: seen)).2 x (List.mem_cons_of_mem _ hx)

theorem verify_topHits_keys_nodup (symbol : String)
    (seen : List (String × Nat)) (store : PersistentState)
    (hits : List SearchHit) (astMs : List AstGrepMatch) (fdSet : List String)
    (fdCands : List String) :
    (((verifyModel symbol seen store hits astMs fdSet
        fdCands).outcome.topHits).map (fun t => (t.path, t.line))).Nodup := by
  show ((((retainNew seen (sortHits (mergeByKey
      (hits.map (adjustHit fdSet (mkAstSet astMs)))))).1.take 5).map
      toTopHit).map (fun t => (t.path, t.line))).Nodup
  rw [List.map_map]
  have heq : ((retainNew seen (sortHits (mergeByKey
      (hits.map (adjustHit fdSet (mkAstSet astMs)))))).1.take 5).map
      ((fun t : TopHit => (t.path, t.line)) ∘ toTopHit) =
      ((retainNew seen (sortHits (mergeByKey
        (hits.map (adjustHit fdSet (mkAstSet astMs)))))).1.map hitKey).take 5 := by
    rw [← List.map_take]
    exact List.map_congr_left (fun h _ => rfl)
  rw [heq]
  exact List.Nodup.sublist (List.take_sublist _ _)
    (retainNew_keys_nodup _ seen)

/-- C3: after the merge step of `verify`, keys are unique and each retained
hit is one of the inputs that no same-key input strictly outscores, with
ties keeping the first observed; every input key survives; the sort is a
permutation that is non-increasing on finite scores while its comparator
maps any NaN comparison to `Equal` (total, hence panic-free); and the
`(path, line)` keys of a summary's top hits are unique. -/
theorem verify_merge_sort_unique :
    (∀ l : List SearchHit, ((mergeByKey l).map hitKey).Nodup) ∧
    (∀ (l : List SearchHit) (m : SearchHit), m ∈ mergeByKey l →
      m ∈ l ∧ ∀ p ∈ l, hitKey p = hitKey m → sgtF p.score m.score = false) ∧
    (∀ (l : List SearchHit) (h : SearchHit), h ∈ l →
      ∃ m ∈ mergeByKey l, hitKey m = hitKey h) ∧
    (∀ (l : List SearchHit) (k : String × Nat) (h₀ : SearchHit),
      findWithKey k l = some h₀ →
      (∀ p ∈ l, hitKey p = k → sgtF p.score h₀.score = false) →
      findWithKey k (mergeByKey l) = some h₀) ∧
    (∀ l : List SearchHit, List.Perm (sortHits l) l) ∧
    (∀ l : List SearchHit, (∀ h ∈ l, h.score.isSome = true) →
      (sortHits l).Pairwise scoreGeF) ∧
    (∀ a b : SearchHit, a.score = none ∨ b.score = none →
      cmpHits a b = .eq) ∧
    (∀ (symbol : String) (seen : List (String × Nat))
      (store : PersistentState) (hits : List SearchHit)
      (astMs : List AstGrepMatch) (fdSet fdCands : List String),
      (((verifyModel symbol seen store hits astMs fdSet
          fdCands).outcome.topHits).map (fun t => (t.path, t.line))).Nodup) :=
  ⟨mergeByKey_keys_nodup,
   fun _ _ hm => mergeByKey_mem_and_max hm,
   fun _ _ hh => mergeByKey_covers hh,
   fun _ _ _ hfirst hno => mergeByKey_ties_first hfirst hno,
   sortHits_perm,
   fun _ hfin => sortHits_pairwise hfin,
   fun _ _ h => cmpHits_of_nan h,
   verify_topHits_keys_nodup⟩

/-- Witness for C3 at a concrete two-hit list with a duplicate key: the
merged entry for the key is the first observed hit (equal scores), the
sorted singleton list is pairwise ordered, and the instantiated hypotheses
hold by computation. -/
theorem verify_merge_sort_unique_witness :
    (⟨"a.rs", 1, "s", some 1, .ripgrep .scoped⟩ : SearchHit) ∈
      mergeByKey [⟨"a.rs", 1, "s", some 1, .ripgrep .scoped⟩,
        ⟨"a.rs", 1, "t", some 1, .ripgrep .global⟩] ∧
    findWithKey ("a.rs", 1)
      (mergeByKey [⟨"a.rs", 1, "s", some 1, .ripgrep .scoped⟩,
        ⟨"a.rs", 1, "t", some 1, .ripgrep .global⟩]) =
      some ⟨"a.rs", 1, "s", some 1, .ripgrep .scoped⟩ ∧
    (sortHits [⟨"a.rs", 1, "s", some 1, .ripgrep .scoped⟩]).Pairwise
      scoreGeF := by
  have hmax : ∀ p ∈ [(⟨"a.rs", 1, "s", some 1, .ripgrep .scoped⟩ : SearchHit),
      ⟨"a.rs", 1, "t", some 1, .ripgrep .global⟩],
      hitKey p = ("a.rs", 1) →
      sgtF p.score (⟨"a.rs", 1, "s", some 1,
        .ripgrep .scoped⟩ : SearchHit).score = false := by
    decide
  have hfirst : findWithKey ("a.rs", 1)
      [(⟨"a.rs", 1, "s", some 1, .ripgrep .scoped⟩ : SearchHit),
       ⟨"a.rs", 1, "t", some 1, .ripgrep .global⟩] =
      some ⟨"a.rs", 1, "s", some 1, .ripgrep .scoped⟩ := by
    decide
  have hties := verify_merge_sort_unique.2.2.2.1 _ _ _ hfirst hmax
  have hmem : (⟨"a.rs", 1, "s", some 1, .ripgrep .scoped⟩ : SearchHit) ∈
      mergeByKey [⟨"a.rs", 1, "s", some 1, .ripgrep .scoped⟩,
        ⟨"a.rs", 1, "t", some 1, .ripgrep .global⟩] := by
    unfold findWithKey at hties
    exact List.mem_of_find?_eq_some hties
  have hsorted := verify_merge_sort_unique.2.2.2.2.2.1
    [⟨"a.rs", 1, "s", some 1, .ripgrep .scoped⟩] (by decide)
  exact ⟨hmem, hties, hsorted⟩

/-! ## Provenance lemmas (claim C10) -/

theorem adjustHit_path (fdSet : List String) (astSet : List (String × Nat))
    (h : SearchHit) : (adjustHit fdSet astSet h).path = h.path := by
  simp only [adjustHit]
  split <;> rfl

theorem adjustHit_line (fdSet : List String) (astSet : List (String × Nat))
    (h : SearchHit) : (adjustHit fdSet astSet h).line = h.line := by
  simp only [adjustHit]
  split <;> rfl

theorem adjustHit_origin (fdSet : List String) (astSet : List (String × Nat))
    (h : SearchHit) : (adjustHit fdSet astSet h).origin =
      if (h.path, h.line) ∈ astSet then HitOrigin.astGrep else h.origin := by
  simp only [adjustHit]
  split <;> rfl

theorem asStr_eq_astGrep {o : HitOrigin} (h : o.asStr = "ast-grep") :
    o = .astGrep := by
  cases o with
  | ripgrep k => cases k <;> exact absurd h (by decide)
  | astGrep => rfl
  | rga => exact absurd h (by decide)

theorem verify_topHits_provenance (symbol : String)
    (seen : List (String × Nat)) (store : PersistentState)
    (hits : List SearchHit) (astMs : List AstGrepMatch)
    (fdSet fdCands : List String) :
    ∀ t ∈ (verifyModel symbol seen store hits astMs fdSet
        fdCands).outcome.topHits,
      (∃ h ∈ hits, h.path = t.path ∧ h.line = t.line) ∧
      ((∀ h ∈ hits, h.origin ≠ .astGrep) → t.origin = "ast-grep" →
        (t.path, t.line) ∈ mkAstSet astMs) := by
  intro t ht
  have ht' : t ∈ ((retainNew seen (sortHits (mergeByKey
      (hits.map (adjustHit fdSet (mkAstSet astMs)))))).1.take 5).map
      toTopHit := ht
  rcases List.mem_map.mp ht' with ⟨h', hh', rfl⟩
  have hh'rem : h' ∈ (retainNew seen (sortHits (mergeByKey
      (hits.map (adjustHit fdSet (mkAstSet astMs)))))).1 :=
    List.take_subset _ _ hh'
  have hsorted := (retainNew_kept hh'rem).1
  have hmerged : h' ∈ mergeByKey
      (hits.map (adjustHit fdSet (mkAstSet astMs))) :=
    (sortHits_perm _).mem_iff.mp hsorted
  have hadj := (mergeByKey_mem_and_max hmerged).1
  rcases List.mem_map.mp hadj with ⟨h, hh, rfl⟩
  constructor
  · exact ⟨h, hh, (adjustHit_path _ _ _).symm, (adjustHit_line _ _ _).symm⟩
  · intro hraw hastr
    have ho : (adjustHit fdSet (mkAstSet astMs) h).origin = .astGrep :=
      asStr_eq_astGrep hastr
    rw [adjustHit_origin] at ho
    by_cases hk : (h.path, h.line) ∈ mkAstSet astMs
    · show ((adjustHit fdSet (mkAstSet astMs) h).path,
        (adjustHit fdSet (mkAstSet astMs) h).line) ∈ mkAstSet astMs
      rw [adjustHit_path, adjustHit_line]
      exact hk
    · rw [if_neg hk] at ho
      exact absurd ho (hraw h hh)

theorem probeHits_prov {rewrites : List String}
    {res : Except String (List RipgrepMatch)} {kind : ProbeKind}
    {h : SearchHit} (hm : h ∈ probeHits rewrites res kind) :
    ∃ m ∈ exceptList res, h.path = m.path ∧ h.line = m.lineNumber ∧
      h.origin ≠ HitOrigin.astGrep := by
  unfold probeHits at hm
  split at hm
  · exact absurd hm (List.not_mem_nil h)
  · cases res with
    | ok ms =>
      rcases List.mem_map.mp hm with ⟨m, hmm, rfl⟩
      exact ⟨m, hmm, rfl, rfl, by simp [SearchHit.fromRipgrep]⟩
    | error e => exact absurd hm (List.not_mem_nil h)

theorem mem_escalatedHits {env : ToolEnv} {rewrites : List String}
    {h : SearchHit} (hm : h ∈ escalatedHits env rewrites) :
    ∃ m : RipgrepMatch,
      (m ∈ exceptList env.rgScoped ∨ m ∈ exceptList env.rgGlobal) ∧
      h.path = m.path ∧ h.line = m.lineNumber ∧
      h.origin ≠ HitOrigin.astGrep := by
  rw [escalatedHits] at hm
  split at hm
  · rcases probeHits_prov hm with ⟨m, hmm, hrest⟩
    exact ⟨m, Or.inr hmm, hrest⟩
  · rcases probeHits_prov hm with ⟨m, hmm, hrest⟩
    exact ⟨m, Or.inl hmm, hrest⟩

theorem mem_indexedHits {cfg : SearchConfigM} {env : ToolEnv}
    {rewrites : List String} {h : SearchHit}
    (hm : h ∈ indexedHits cfg env rewrites) :
    ∃ m : RipgrepMatch,
      (m ∈ exceptList env.rgScoped ∨ m ∈ exceptList env.rgGlobal ∨
       m ∈ exceptList env.rgIndexed) ∧
      h.path = m.path ∧ h.line = m.lineNumber ∧
      h.origin ≠ HitOrigin.astGrep := by
  have esc : h ∈ escalatedHits env rewrites →
      ∃ m : RipgrepMatch,
        (m ∈ exceptList env.rgScoped ∨ m ∈ exceptList env.rgGlobal ∨
         m ∈ exceptList env.rgIndexed) ∧
        h.path = m.path ∧ h.line = m.lineNumber ∧
        h.origin ≠ HitOrigin.astGrep := by
    intro hx
    rcases mem_escalatedHits hx with ⟨m, hmm, hrest⟩
    rcases hmm with hmm | hmm
    · exact ⟨m, Or.inl hmm, hrest⟩
    · exact ⟨m, Or.inr (Or.inl hmm), hrest⟩
  rw [indexedHits] at hm
  split at hm
  · split at hm
    · split at hm
      · exact esc hm
      · rcases List.mem_append.mp hm with hx | hx
        · exact esc hx
        · rcases probeHits_prov hx with ⟨m, hmm, hrest⟩
          exact ⟨m, Or.inr (Or.inr hmm), hrest⟩
    · exact esc hm
  · exact esc hm

theorem mem_gatherHits {cfg : SearchConfigM} {env : ToolEnv}
    {rewrites : List String} {h : SearchHit}
    (hm : h ∈ gatherHits cfg env rewrites) :
    (∃ m : RipgrepMatch,
      (m ∈ exceptList env.rgScoped ∨ m ∈ exceptList env.rgGlobal ∨
       m ∈ exceptList env.rgIndexed) ∧
      h.path = m.path ∧ h.line = m.lineNumber ∧ h.origin ≠ .astGrep) ∨
    (∃ g ∈ exceptList env.rgaResult,
      h.path = g.path ∧ h.line = g.lineNumber ∧ h.origin ≠ .astGrep) := by
  rw [gatherHits] at hm
  split at hm
  · split at hm
    · rename_i ms heq
      rcases List.mem_append.mp hm with hx | hx
      · exact Or.inl (mem_indexedHits hx)
      · rcases List.mem_map.mp hx with ⟨g, hg, rfl⟩
        refine Or.inr ⟨g, ?_, rfl, rfl, by simp [SearchHit.fromRga]⟩
        rw [heq]
        exact hg
    · exact Or.inl (mem_indexedHits hm)
  · exact Or.inl (mem_indexedHits hm)

theorem finishCycle_ok {cfg : SearchConfigM} {env : ToolEnv}
    {x r : SearchSummaryM × EngineState × Bool}
    (h : finishCycle cfg env x = .ok r) : r = x := by
  unfold finishCycle at h
  cases hl : logStep cfg env with
  | ok u =>
    rw [hl] at h
    injection h with h
    exact h.symm
  | error e =>
    rw [hl] at h
    exact absurd h (by simp)

theorem fastPathOutcome_some {cfg : SearchConfigM} {env : ToolEnv}
    {st : EngineState} {rewrites : List String}
    {r : SearchSummaryM × EngineState × Bool}
    (h : fastPathOutcome cfg env st rewrites = some r) :
    ∃ ms, env.rgGlobal = .ok ms ∧
      r.1.topHits = (verifyModel cfg.symbol st.seen st.store
        (ms.map (fun m => SearchHit.fromRipgrep m .global)) [] []
        []).outcome.topHits ∧
      r.1.astHits = [] := by
  unfold fastPathOutcome at h
  split at h
  · exact absurd h (by simp)
  · split at h
    · exact absurd h (by simp)
    · rename_i ms heq
      split at h
      · exact absurd h (by simp)
      · injection h with h
        exact ⟨ms, heq, by rw [← h], by rw [← h]⟩

theorem runCycle_ok_cases {cfg : SearchConfigM} {env : ToolEnv}
    {st : EngineState} {r : SearchSummaryM × EngineState × Bool}
    (h : runCycle cfg env st = .ok r) :
    (∃ ms, env.rgGlobal = .ok ms ∧
      r.1.topHits = (verifyModel cfg.symbol st.seen st.store
        (ms.map (fun m => SearchHit.fromRipgrep m .global)) [] []
        []).outcome.topHits ∧
      r.1.astHits = []) ∨
    (r.1.topHits = (verifyModel cfg.symbol st.seen st.store
        (gatherHits cfg env
          (QueryRewriter.build cfg.symbol cfg.languageTokens))
        (disambiguateM cfg env) (discover cfg env st.store)
        (discover cfg env st.store)).outcome.topHits ∧
      r.1.astHits = (disambiguateM cfg env).map
        (fun a => (a.path, a.line + 1))) := by
  simp only [runCycle] at h
  cases hfp : fastPathOutcome cfg env st
      (QueryRewriter.build cfg.symbol cfg.languageTokens) with
  | some r' =>
    rw [hfp] at h
    have := finishCycle_ok h
    subst this
    exact Or.inl (fastPathOutcome_some hfp)
  | none =>
    rw [hfp] at h
    have := finishCycle_ok h
    subst this
    exact Or.inr ⟨rfl, rfl⟩

/-- C10: every hit in a summary's `top_hits` carries the `(path, line)` of
some ripgrep match (scoped, global or indexed probe) or rga match collected
this cycle; a top hit labelled `ast-grep` is a promoted hit whose key lies
in the ast-grep match set (so an ast-grep match at a location with no
rg/rga hit never appears in `top_hits`); and `ast_hits` reports the
ast-grep matches separately. -/
theorem topHits_originate_from_rg_or_rga (cfg : SearchConfigM)
    (env : ToolEnv) (st : EngineState)
    (r : SearchSummaryM × EngineState × Bool)
    (hrun : runCycle cfg env st = .ok r) :
    ∀ t ∈ r.1.topHits,
      ((∃ m : RipgrepMatch,
          (m ∈ exceptList env.rgScoped ∨ m ∈ exceptList env.rgGlobal ∨
           m ∈ exceptList env.rgIndexed) ∧
          t.path = m.path ∧ t.line = m.lineNumber) ∨
       (∃ g ∈ exceptList env.rgaResult,
          t.path = g.path ∧ t.line = g.lineNumber)) ∧
      (t.origin = "ast-grep" →
        (t.path, t.line) ∈ mkAstSet (disambiguateM cfg env)) ∧
      (r.1.astHits = [] ∨ r.1.astHits = (disambiguateM cfg env).map
        (fun a => (a.path, a.line + 1))) := by
  intro t ht
  rcases runCycle_ok_cases hrun with ⟨ms, hg, htop, hast⟩ | ⟨htop, hast⟩
  · rw [htop] at ht
    have hprov := verify_topHits_provenance cfg.symbol st.seen st.store
      (ms.map (fun m => SearchHit.fromRipgrep m .global)) [] [] [] t ht
    rcases hprov.1 with ⟨h, hh, hp, hl⟩
    rcases List.mem_map.mp hh with ⟨m, hmm, rfl⟩
    refine ⟨Or.inl ⟨m, Or.inr (Or.inl (by rw [hg]; exact hmm)),
      hp.symm, hl.symm⟩, ?_, Or.inl hast⟩
    intro hastr
    have := hprov.2 (by
      intro h' hh'
      rcases List.mem_map.mp hh' with ⟨m', _, rfl⟩
      simp [SearchHit.fromRipgrep]) hastr
    exact absurd this (by simp [mkAstSet])
  · rw [htop] at ht
    have hprov := verify_topHits_provenance cfg.symbol st.seen st.store
      (gatherHits cfg env
        (QueryRewriter.build cfg.symbol cfg.languageTokens))
      (disambiguateM cfg env) (discover cfg env st.store)
      (discover cfg env st.store) t ht
    rcases hprov.1 with ⟨h, hh, hp, hl⟩
    have hraw : ∀ h' ∈ gatherHits cfg env
        (QueryRewriter.build cfg.symbol cfg.languageTokens),
        h'.origin ≠ HitOrigin.astGrep := by
      intro h' hh'
      rcases mem_gatherHits hh' with ⟨_, _, _, _, hne⟩ | ⟨_, _, _, _, hne⟩ <;>
        exact hne
    refine ⟨?_, hprov.2 hraw, Or.inr hast⟩
    rcases mem_gatherHits hh with ⟨m, hmm, hpm, hlm, _⟩ | ⟨g, hgm, hpg, hlg, _⟩
    · exact Or.inl ⟨m, hmm, by rw [← hp, hpm], by rw [← hl, hlm]⟩
    · exact Or.inr ⟨g, hgm, by rw [← hp, hpg], by rw [← hl, hlg]⟩

/-- Witness for C10 on the concrete fast-path fixtures: the single top hit
of the cycle originates from the global ripgrep match `mW10`. -/
theorem topHits_originate_witness :
    runCycle cfgW10 envW10 stW10 = .ok rW10 ∧
    tW10 ∈ rW10.1.topHits ∧
    (((∃ m : RipgrepMatch,
        (m ∈ exceptList envW10.rgScoped ∨ m ∈ exceptList envW10.rgGlobal ∨
         m ∈ exceptList envW10.rgIndexed) ∧
        tW10.path = m.path ∧ tW10.line = m.lineNumber) ∨
      (∃ g ∈ exceptList envW10.rgaResult,
        tW10.path = g.path ∧ tW10.line = g.lineNumber)) ∧
     (tW10.origin = "ast-grep" →
       (tW10.path, tW10.line) ∈ mkAstSet (disambiguateM cfgW10 envW10)) ∧
     (rW10.1.astHits = [] ∨ rW10.1.astHits = (disambiguateM cfgW10
        envW10).map (fun a => (a.path, a.line + 1)))) := by
  have hrun : runCycle cfgW10 envW10 stW10 = .ok rW10 := rfl
  have hmem : tW10 ∈ rW10.1.topHits := List.mem_singleton_self tW10
  exact ⟨hrun, hmem,
    topHits_originate_from_rg_or_rga cfgW10 envW10 stW10 rW10 hrun tW10 hmem⟩

/-! ## Metrics domain (claim C4) -/

/-- Counterexample to C4 as stated: one retained hit at `p:1` with two
ast-grep keys in the same file gives `precision = |ast_set| / |hits| = 2`
and `reward = 1.3`, both outside `[0, 1]`. -/
theorem compute_metrics_exceeds_one :
    1 < (computeMetrics [hW4] [("p", 1), ("p", 2)] 0).precision ∧
    1 < (computeMetrics [hW4] [("p", 1), ("p", 2)] 0).reward := by
  have hd : ([("p", 1), ("p", 2)] : List (String × Nat)).dedup
      = [("p", 1), ("p", 2)] := by decide
  have hu : (([hW4] : List SearchHit).map (fun h => h.path)).dedup
      = ["p"] := by decide
  unfold computeMetrics
  norm_num [hd, hu, hW4]

/-- C4 amended: `density` and `cluster_score` always lie in `[0, 1]`,
`precision` and `reward` are nonnegative and lie in `[0, 1]` whenever the
ast-grep key set is no larger than the retained hit list (the code does not
enforce this: see the counterexample), and `reward = 0` iff `hits` is
empty. -/
theorem compute_metrics_domain (hits : List SearchHit)
    (astSet : List (String × Nat)) (fd : Nat) :
    0 ≤ (computeMetrics hits astSet fd).precision ∧
    0 ≤ (computeMetrics hits astSet fd).density ∧
    (computeMetrics hits astSet fd).density ≤ 1 ∧
    0 ≤ (computeMetrics hits astSet fd).clusterScore ∧
    (computeMetrics hits astSet fd).clusterScore ≤ 1 ∧
    0 ≤ (computeMetrics hits astSet fd).reward ∧
    (astSet.dedup.length ≤ hits.length →
      (computeMetrics hits astSet fd).precision ≤ 1 ∧
      (computeMetrics hits astSet fd).reward ≤ 1) ∧
    ((computeMetrics hits astSet fd).reward = 0 ↔ hits = []) := by
  cases hits with
  | nil =>
    unfold computeMetrics
    norm_num [SearchMetrics.zero]
  | cons h0 rest =>
    have hne : (h0 :: rest).isEmpty = false := rfl
    unfold computeMetrics
    rw [hne]
    simp only [Bool.false_eq_true, if_false]
    have hn : (1 : ℚ) ≤ ((h0 :: rest).length : ℚ) := by
      have : 1 ≤ (h0 :: rest).length := by
        simp [List.length_cons]
      exact_mod_cast this
    have hupos : (0 : ℚ) < (((h0 :: rest).map (fun h => h.path)).dedup.length : ℚ) := by
      have : ((h0 :: rest).map (fun h => h.path)).dedup ≠ [] := by
        simp [List.dedup_eq_nil]
      have : 0 < ((h0 :: rest).map (fun h => h.path)).dedup.length :=
        List.length_pos.mpr this
      exact_mod_cast this
    have hun : (((h0 :: rest).map (fun h => h.path)).dedup.length : ℚ) ≤
        ((h0 :: rest).length : ℚ) := by
      have h1 : ((h0 :: rest).map (fun h => h.path)).dedup.length ≤
          ((h0 :: rest).map (fun h => h.path)).length :=
        List.Sublist.length_le (List.dedup_sublist _)
      have h2 : ((h0 :: rest).map (fun h => h.path)).length =
          (h0 :: rest).length := List.length_map _ _
      exact_mod_cast h2 ▸ h1
    have hr1 : (1 : ℚ) ≤ ((h0 :: rest).length : ℚ) /
        (((h0 :: rest).map (fun h => h.path)).dedup.length : ℚ) :=
      (one_le_div hupos).mpr hun
    have hrpos : (0 : ℚ) < ((h0 :: rest).length : ℚ) /
        (((h0 :: rest).map (fun h => h.path)).dedup.length : ℚ) + 1 := by
      linarith
    have hdens_lo : (1 : ℚ)/2 ≤ (((h0 :: rest).length : ℚ) /
        (((h0 :: rest).map (fun h => h.path)).dedup.length : ℚ)) /
        (((h0 :: rest).length : ℚ) /
          (((h0 :: rest).map (fun h => h.path)).dedup.length : ℚ) + 1) := by
      rw [le_div_iff₀ hrpos]
      linarith
    have hdens_hi : (((h0 :: rest).length : ℚ) /
        (((h0 :: rest).map (fun h => h.path)).dedup.length : ℚ)) /
        (((h0 :: rest).length : ℚ) /
          (((h0 :: rest).map (fun h => h.path)).dedup.length : ℚ) + 1) ≤ 1 := by
      rw [div_le_one hrpos]
      linarith
    have hcn : (0 : ℚ) ≤ (((h0 :: rest).foldl
        (fun acc h => Nat.max acc h.line) 0 -
        (h0 :: rest).foldl (fun acc h => Nat.min acc h.line)
          18446744073709551615 : Nat) : ℚ) /
        (((h0 :: rest).length : ℚ) + 1) := by
      apply div_nonneg
      · exact_mod_cast Nat.zero_le _
      · linarith
    have hclus_hi : (1 : ℚ) / (1 + (((h0 :: rest).foldl
        (fun acc h => Nat.max acc h.line) 0 -
        (h0 :: rest).foldl (fun acc h => Nat.min acc h.line)
          18446744073709551615 : Nat) : ℚ) /
        (((h0 :: rest).length : ℚ) + 1)) ≤ 1 := by
      rw [div_le_one (by linarith)]
      linarith
    have hclus_lo : (0 : ℚ) ≤ (1 : ℚ) / (1 + (((h0 :: rest).foldl
        (fun acc h => Nat.max acc h.line) 0 -
        (h0 :: rest).foldl (fun acc h => Nat.min acc h.line)
          18446744073709551615 : Nat) : ℚ) /
        (((h0 :: rest).length : ℚ) + 1)) := by
      apply div_nonneg
      · norm_num
      · linarith
    have hprec_lo : (0 : ℚ) ≤ (astSet.dedup.length : ℚ) /
        ((h0 :: rest).length : ℚ) := by
      apply div_nonneg
      · exact_mod_cast Nat.zero_le _
      · linarith
    have hfd_lo : (0 : ℚ) ≤ (if 0 < fd then
        ((Nat.min (h0 :: rest).length fd : ℚ)) / (fd : ℚ) else 0) := by
      split
      · apply div_nonneg
        · exact_mod_cast Nat.zero_le _
        · rename_i hfd
          exact_mod_cast Nat.le_of_lt hfd
      · exact le_refl 0
    have hfd_hi : (if 0 < fd then
        ((Nat.min (h0 :: rest).length fd : ℚ)) / (fd : ℚ) else 0) ≤ 1 := by
      split
      · rename_i hfd
        rw [div_le_one (by exact_mod_cast hfd)]
        exact_mod_cast Nat.min_le_right _ _
      · norm_num
    refine ⟨hprec_lo, by linarith, hdens_hi, hclus_lo, hclus_hi, ?_, ?_, ?_⟩
    · linarith
    · intro hle
      have hprec_hi : (astSet.dedup.length : ℚ) /
          ((h0 :: rest).length : ℚ) ≤ 1 := by
        rw [div_le_one (by linarith)]
        exact_mod_cast hle
      exact ⟨hprec_hi, by linarith⟩
    · constructor
      · intro habs
        exfalso
        have : (0 : ℚ) < 5/10 * ((astSet.dedup.length : ℚ) /
            ((h0 :: rest).length : ℚ)) + 3/10 * ((((h0 :: rest).length : ℚ) /
            (((h0 :: rest).map (fun h => h.path)).dedup.length : ℚ)) /
            (((h0 :: rest).length : ℚ) /
              (((h0 :: rest).map (fun h => h.path)).dedup.length : ℚ) + 1)) +
            15/100 * ((1 : ℚ) / (1 + (((h0 :: rest).foldl
              (fun acc h => Nat.max acc h.line) 0 -
              (h0 :: rest).foldl (fun acc h => Nat.min acc h.line)
                18446744073709551615 : Nat) : ℚ) /
              (((h0 :: rest).length : ℚ) + 1))) +
            5/100 * (if 0 < fd then
              ((Nat.min (h0 :: rest).length fd : ℚ)) / (fd : ℚ) else 0) := by
          linarith
        rw [habs] at this
        exact absurd this (lt_irrefl 0)
      · intro habs
        exact absurd habs (by simp)

/-- Witness for C4 (amended) at one hit and an empty ast-grep set. -/
theorem compute_metrics_domain_witness :
    (([] : List (String × Nat)).dedup.length ≤ ([hW4] : List SearchHit).length) ∧
    (computeMetrics [hW4] [] 0).precision ≤ 1 ∧
    (computeMetrics [hW4] [] 0).reward ≤ 1 := by
  have hle : (([] : List (String × Nat)).dedup.length ≤
      ([hW4] : List SearchHit).length) := by decide
  have := (compute_metrics_domain [hW4] [] 0).2.2.2.2.2.2.1 hle
  exact ⟨hle, this.1, this.2⟩

/-! ## Adapter cap lemmas (claims C6, C7) -/

theorem rgCollectAux_length {maxM : Nat} {parse : String → Option RgMatchData} :
    ∀ (lines : List String) (acc : List RipgrepMatch), acc.length ≤ maxM →
      (rgCollectAux maxM parse acc lines).1.length ≤ maxM := by
  intro lines
  induction lines with
  | nil => intro acc h; exact h
  | cons l rest ih =>
    intro acc h
    rw [rgCollectAux]
    split
    · exact h
    · rename_i hnle
      cases hp : parse l with
      | some d =>
        simp only [hp]
        apply ih
        simp only [List.length_append, List.length_singleton]
        omega
      | none =>
        simp only [hp]
        exact ih acc h

theorem rgCollectAux_stable {maxM : Nat} {parse : String → Option RgMatchData} :
    ∀ (lines : List String) (acc : List RipgrepMatch) (extra : List String),
      (rgCollectAux maxM parse acc lines).2 = true →
      rgCollectAux maxM parse acc (lines ++ extra) =
        rgCollectAux maxM parse acc lines := by
  intro lines
  induction lines with
  | nil =>
    intro acc extra h
    exact absurd h (by simp [rgCollectAux])
  | cons l rest ih =>
    intro acc extra h
    by_cases hc : maxM ≤ acc.length
    · simp only [List.cons_append, rgCollectAux, if_pos hc]
    · rw [rgCollectAux, if_neg hc] at h
      simp only [List.cons_append, rgCollectAux, if_neg hc]
      cases hp : parse l with
      | some d =>
        simp only [hp] at h ⊢
        exact ih _ extra h
      | none =>
        simp only [hp] at h ⊢
        exact ih _ extra h

theorem rgaCollectAux_length {maxM : Nat} {parse : String → Option RgMatchData} :
    ∀ (lines : List String) (acc : List RgaMatch), acc.length ≤ maxM →
      (rgaCollectAux maxM parse acc lines).1.length ≤ maxM := by
  intro lines
  induction lines with
  | nil => intro acc h; exact h
  | cons l rest ih =>
    intro acc h
    rw [rgaCollectAux]
    split
    · exact h
    · rename_i hnle
      cases hp : parse l with
      | some d =>
        simp only [hp]
        apply ih
        simp only [List.length_append, List.length_singleton]
        omega
      | none =>
        simp only [hp]
        exact ih acc h

theorem rgaCollectAux_stable {maxM : Nat} {parse : String → Option RgMatchData} :
    ∀ (lines : List String) (acc : List RgaMatch) (extra : List String),
      (rgaCollectAux maxM parse acc lines).2 = true →
      rgaCollectAux maxM parse acc (lines ++ extra) =
        rgaCollectAux maxM parse acc lines := by
  intro lines
  induction lines with
  | nil =>
    intro acc extra h
    exact absurd h (by simp [rgaCollectAux])
  | cons l rest ih =>
    intro acc extra h
    by_cases hc : maxM ≤ acc.length
    · simp only [List.cons_append, rgaCollectAux, if_pos hc]
    · rw [rgaCollectAux, if_neg hc] at h
      simp only [List.cons_append, rgaCollectAux, if_neg hc]
      cases hp : parse l with
      | some d =>
        simp only [hp] at h ⊢
        exact ih _ extra h
      | none =>
        simp only [hp] at h ⊢
        exact ih _ extra h

theorem fdCollect_length (root : String) :
    ∀ lines : List String, (fdCollect root lines).length =
      (lines.filter (fun l => !(trimChars l.data).isEmpty)).length := by
  intro lines
  induction lines with
  | nil => rfl
  | cons l rest ih =>
    by_cases hc : (trimChars l.data).isEmpty = true
    · simp only [fdCollect, List.filterMap_cons, List.filter_cons, hc,
        if_pos, Bool.not_true, if_false, Bool.false_eq_true]
      exact ih
    · have hc' : (trimChars l.data).isEmpty = false := by
        cases h : (trimChars l.data).isEmpty
        · rfl
        · exact absurd h hc
      simp only [fdCollect, List.filterMap_cons, List.filter_cons, hc',
        Bool.not_false, Bool.false_eq_true, if_false, if_pos,
        List.length_cons]
      exact congrArg (· + 1) ih

theorem absorbMatches_length {maxM : Nat} :
    ∀ (ms : List AstGrepMatch) (agg : List AstGrepMatch)
      (seen : List (String × Nat)), agg.length < maxM →
      (absorbMatches maxM agg seen ms).1.length ≤ maxM := by
  intro ms
  induction ms with
  | nil =>
    intro agg seen h
    exact Nat.le_of_lt h
  | cons m rest ih =>
    intro agg seen h
    rw [absorbMatches]
    split
    · exact ih agg seen h
    · show (if maxM ≤ (agg ++ [m]).length then (agg ++ [m], (m.path, m.line) :: seen)
          else absorbMatches maxM (agg ++ [m]) ((m.path, m.line) :: seen) rest).1.length ≤ maxM
      by_cases hle : maxM ≤ (agg ++ [m]).length
      · rw [if_pos hle]
        simp only [List.length_append, List.length_singleton]
        omega
      · rw [if_neg hle]
        exact ih _ _ (Nat.lt_of_not_le hle)

theorem runPatternList_length {exec : String → String → AstProcOutput}
    {maxM : Nat} {lang : String} :
    ∀ (pats : List String) (st : List AstGrepMatch × List (String × Nat))
      (st' : List AstGrepMatch × List (String × Nat)),
      st.1.length ≤ maxM →
      runPatternList exec maxM lang st pats = .ok st' →
      st'.1.length ≤ maxM := by
  intro pats
  induction pats with
  | nil =>
    intro st st' h hrun
    rw [runPatternList] at hrun
    injection hrun with hrun
    exact hrun ▸ h
  | cons p rest ih =>
    intro st st' h hrun
    rw [runPatternList] at hrun
    split at hrun
    · injection hrun with hrun
      exact hrun ▸ h
    · rename_i hnle
      split at hrun
      · exact absurd hrun (by simp)
      · rename_i ms heq
        refine ih _ st' ?_ hrun
        exact absorbMatches_length ms st.1 st.2 (Nat.lt_of_not_le hnle)

theorem runLangs_length {exec : String → String → AstProcOutput}
    {maxM : Nat} {symbol : String} :
    ∀ (langs : List String) (st st' : List AstGrepMatch × List (String × Nat)),
      st.1.length ≤ maxM →
      runLangs exec maxM symbol st langs = .ok st' →
      st'.1.length ≤ maxM := by
  intro langs
  induction langs with
  | nil =>
    intro st st' h hrun
    rw [runLangs] at hrun
    injection hrun with hrun
    exact hrun ▸ h
  | cons lang rest ih =>
    intro st st' h hrun
    rw [runLangs] at hrun
    split at hrun
    · exact absurd hrun (by simp)
    · rename_i st₁ heq
      exact ih st₁ st' (runPatternList_length _ st st₁ h heq) hrun

theorem searchIdentifier_length {maxM : Nat}
    {exec : String → String → AstProcOutput} {symbol : String}
    {languages : List String} {res : List AstGrepMatch}
    (h : searchIdentifier maxM exec symbol languages = .ok res) :
    res.length ≤ maxM := by
  simp only [searchIdentifier] at h
  split at h
  · exact absurd h (by simp)
  · rename_i st heq
    injection h with h
    have := runLangs_length _ ([], []) st (by simp) heq
    exact h ▸ this

/-- Counterexample to C6 as stated: the fd adapter's read loop applies no
`max_matches` cap at all (three lines yield three results, over an engine
cap of 2), and the rg adapter, after reaching its cap, takes the child out
of the kill-on-drop guard and *waits* for it rather than killing it. -/
theorem adapter_cap_no_kill :
    2 < (fdCollect "r" ["a", "b", "c"]).length ∧
    (rgCollect 1 parseW6 ["a", "b"]).matchList.length = 1 ∧
    (rgCollect 1 parseW6 ["a", "b"]).capBreak = true ∧
    (rgCollect 1 parseW6 ["a", "b"]).childAction ≠ ChildAction.killed := by
  refine ⟨?_, ?_, ?_, ?_⟩ <;> decide

/-- C6 amended: the rg and rga adapters return at most `max_matches`
matches and, once the cap is reached, stop reading (further output cannot
change the result) but then wait for the child instead of killing it; the
ast-grep adapter caps its aggregate at `max_matches` while reading the
child's entire output; the fd adapter applies no adapter-side cap and
returns every non-blank line (capping is delegated to fd's own
`--max-results`, fixed at 200 by the engine). -/
theorem adapters_cap_behavior :
    (∀ (maxM : Nat) (parse : String → Option RgMatchData)
      (lines : List String),
      (rgCollect maxM parse lines).matchList.length ≤ maxM ∧
      (rgCollect maxM parse lines).childAction = .waited) ∧
    (∀ (maxM : Nat) (parse : String → Option RgMatchData)
      (lines extra : List String),
      (rgCollect maxM parse lines).capBreak = true →
      (rgCollect maxM parse (lines ++ extra)).matchList =
        (rgCollect maxM parse lines).matchList) ∧
    (∀ (maxM : Nat) (parse : String → Option RgMatchData)
      (lines : List String),
      (rgaCollect maxM parse lines).matchList.length ≤ maxM ∧
      (rgaCollect maxM parse lines).childAction = .waited) ∧
    (∀ (maxM : Nat) (parse : String → Option RgMatchData)
      (lines extra : List String),
      (rgaCollect maxM parse lines).capBreak = true →
      (rgaCollect maxM parse (lines ++ extra)).matchList =
        (rgaCollect maxM parse lines).matchList) ∧
    (∀ (maxM : Nat) (exec : String → String → AstProcOutput)
      (symbol : String) (languages : List String) (res : List AstGrepMatch),
      searchIdentifier maxM exec symbol languages = .ok res →
      res.length ≤ maxM) ∧
    (∀ (root : String) (lines : List String),
      (fdCollect root lines).length =
        (lines.filter (fun l => !(trimChars l.data).isEmpty)).length) := by
  refine ⟨?_, ?_, ?_, ?_, ?_, ?_⟩
  · intro maxM parse lines
    exact ⟨rgCollectAux_length lines [] (by simp), rfl⟩
  · intro maxM parse lines extra h
    show (rgCollectAux maxM parse [] (lines ++ extra)).1 =
      (rgCollectAux maxM parse [] lines).1
    rw [rgCollectAux_stable lines [] extra h]
  · intro maxM parse lines
    exact ⟨rgaCollectAux_length lines [] (by simp), rfl⟩
  · intro maxM parse lines extra h
    show (rgaCollectAux maxM parse [] (lines ++ extra)).1 =
      (rgaCollectAux maxM parse [] lines).1
    rw [rgaCollectAux_stable lines [] extra h]
  · intro maxM exec symbol languages res h
    exact searchIdentifier_length h
  · intro root lines
    exact fdCollect_length root lines

/-- Witness for C6 (amended) on concrete adapter runs. -/
theorem adapters_cap_behavior_witness :
    (rgCollect 1 parseW6 ["a", "b"]).capBreak = true ∧
    (rgCollect 1 parseW6 (["a", "b"] ++ ["c"])).matchList =
      (rgCollect 1 parseW6 ["a", "b"]).matchList ∧
    searchIdentifier 2 execW6 "foo" ["rust"] = .ok [] ∧
    ([] : List AstGrepMatch).length ≤ 2 ∧
    (rgCollect 3 parseW6 ["a"]).matchList.length ≤ 3 := by
  have hcb : (rgCollect 1 parseW6 ["a", "b"]).capBreak = true := by decide
  have hok : searchIdentifier 2 execW6 "foo" ["rust"] = .ok [] := by rfl
  exact ⟨hcb, adapters_cap_behavior.2.1 1 parseW6 ["a", "b"] ["c"] hcb, hok,
    adapters_cap_behavior.2.2.2.2.1 2 execW6 "foo" ["rust"] [] hok,
    (adapters_cap_behavior.1 3 parseW6 ["a"]).1⟩

/-- Counterexample to C7 as stated: with the first rust pattern for
`"foo"` returning one match and the second reporting an ERROR node,
`search_identifier` does not preserve the aggregated matches and skip
the bad pattern — the `?` on `run_pattern` aborts the whole call, the
already-aggregated match is discarded and the remaining patterns never
run. -/
theorem ast_pattern_error_discards_matches :
    runPatternM (execW7 "rust" patW7a) patW7a 20 =
      .ok [{ path := "src/a.rs", line := 2 }] ∧
    patW7a ∈ patternsForLanguage "foo" "rust" ∧
    patW7b ∈ patternsForLanguage "foo" "rust" ∧
    searchIdentifier 20 execW7 "foo" ["rust"] =
      .error (.patternError patW7b
        "Pattern contains an ERROR node in rule") := by
  exact ⟨rfl, by decide, by decide, rfl⟩

/-- C7 amended: an ERROR-node diagnostic on ast-grep's stderr is surfaced
as the distinguished `PatternError` carrying the offending pattern and the
trimmed diagnostic line; but inside `search_identifier` the error aborts
the whole call — matches already aggregated from earlier patterns are
discarded and the remaining patterns are skipped — and the pattern is
effectively "skipped" only one level up, where the engine's disambiguate
stage maps any ast-grep error to an empty match set. -/
theorem ast_pattern_error_aborts :
    (∀ (output : AstProcOutput) (pattern : String) (limit : Nat)
      (diag : String), limit ≠ 0 →
      output.stderrLines.find?
        (fun l => strContainsSub l "Pattern contains an ERROR node") =
          some diag →
      runPatternM output pattern limit =
        .error (.patternError pattern (strTrim diag))) ∧
    (∀ (exec : String → String → AstProcOutput) (maxM : Nat) (lang : String)
      (st : List AstGrepMatch × List (String × Nat)) (p : String)
      (rest : List String) (e : AstError), ¬(maxM ≤ st.1.length) →
      runPatternM (exec lang p) p (maxM - st.1.length) = .error e →
      runPatternList exec maxM lang st (p :: rest) = .error e) ∧
    (∀ (cfg : SearchConfigM) (env : ToolEnv) (e : String),
      env.astResult = .error e → disambiguateM cfg env = []) := by
  refine ⟨?_, ?_, ?_⟩
  · intro output pattern limit diag hl hf
    rw [runPatternM, if_neg hl, hf]
  · intro exec maxM lang st p rest e hle herr
    rw [runPatternList, if_neg hle, herr]
  · intro cfg env e he
    rw [disambiguateM, he]
    split <;> rfl

/-- Witness for C7 (amended) at concrete inputs. -/
theorem ast_pattern_error_aborts_witness :
    runPatternM (execW7 "rust" patW7b) patW7b 20 =
      .error (.patternError patW7b
        (strTrim "Pattern contains an ERROR node in rule")) ∧
    runPatternList execW7 20 "rust"
      ([{ path := "src/a.rs", line := 2 }], [("src/a.rs", 2)]) [patW7b] =
      .error (.patternError patW7b
        "Pattern contains an ERROR node in rule") ∧
    disambiguateM cfgW10
      { envW10 with astResult := .error "spawn failed" } = [] := by
  refine ⟨?_, ?_, ?_⟩
  · exact ast_pattern_error_aborts.1 (execW7 "rust" patW7b) patW7b 20
      "Pattern contains an ERROR node in rule" (by decide) (by rfl)
  · exact ast_pattern_error_aborts.2.1 execW7 20 "rust"
      ([{ path := "src/a.rs", line := 2 }], [("src/a.rs", 2)]) patW7b []
      (.patternError patW7b "Pattern contains an ERROR node in rule")
      (by decide) (by rfl)
  · exact ast_pattern_error_aborts.2.2 cfgW10
      { envW10 with astResult := .error "spawn failed" }
      "spawn failed" rfl

/-- Counterexample to C8 as stated: on the CLI surface a whitespace-only
symbol is not rejected — `cli.rs` performs no symbol validation and
`main.rs` runs `search::execute` directly, so the cycle runs and the
process exits 0. -/
theorem blank_symbol_cli_exits_zero :
    (strTrim cfgW8.symbol).data.isEmpty = true ∧
    (runCycle cfgW8 envW10 stW10).isOk = true := by
  exact ⟨rfl, rfl⟩

/-- C8 amended: the blank-symbol guard lives in `SearchExecutor::execute`
(and the HTTP handler's own check), so the service surfaces reject a
whitespace-only symbol — executor error "symbol is required" for every
engine thunk, HTTP 400, RPC invalid-argument — but the CLI surface has no
such check: `run_cycle` runs and succeeds on a blank symbol (the process
exits 0). -/
theorem blank_symbol_service_only :
    (∀ (symbol : String) (runSearch : Unit → Except String SearchSummaryM),
      (strTrim symbol).data.isEmpty = true →
      executorExecute symbol runSearch = .error "symbol is required") ∧
    (∀ (symbol : String) (runSearch : Unit → Except String SearchSummaryM),
      (strTrim symbol).data.isEmpty = true →
      httpSearch symbol runSearch = .badRequest400) ∧
    (∀ (symbol : String) (runSearch : Unit → Except String SearchSummaryM),
      (strTrim symbol).data.isEmpty = true →
      grpcSearch symbol runSearch = .invalidArgument) ∧
    (∀ (cfg : SearchConfigM) (env : ToolEnv) (st : EngineState),
      (strTrim cfg.symbol).data.isEmpty = true →
      (cfg.hasLogDir = true → env.logResult = .ok ()) →
      (runCycle cfg env st).isOk = true) := by
  refine ⟨?_, ?_, ?_, ?_⟩
  · intro s r h
    rw [executorExecute, if_pos h]
  · intro s r h
    rw [httpSearch, if_pos h]
  · intro s r h
    rw [grpcSearch, executorExecute, if_pos h]
    rfl
  · intro cfg env st hblank hlog
    have ht : (trimChars cfg.symbol.data).isEmpty = true := hblank
    have hlit : isLiteralSymbol cfg.symbol = false := by
      simp only [isLiteralSymbol, ht, Bool.not_true, Bool.false_and]
    have hfp : fastPathOutcome cfg env st
        (QueryRewriter.build cfg.symbol cfg.languageTokens) = none := by
      simp [fastPathOutcome, hlit]
    have hls : logStep cfg env = .ok () := by
      cases hld : cfg.hasLogDir with
      | false => simp [logStep, hld]
      | true => simp [logStep, hld, hlog hld]
    simp only [runCycle, hfp, finishCycle, hls]
    rfl

/-- Witness for C8 (amended) at concrete inputs. -/
theorem blank_symbol_service_only_witness :
    executorExecute "   " (fun _ => .error "engine ran") =
      .error "symbol is required" ∧
    httpSearch "   " (fun _ => .error "engine ran") = .badRequest400 ∧
    grpcSearch "   " (fun _ => .error "engine ran") = .invalidArgument ∧
    (runCycle cfgW8 envW10 stW10).isOk = true := by
  refine ⟨?_, ?_, ?_, ?_⟩
  · exact blank_symbol_service_only.1 "   " _ (by decide)
  · exact blank_symbol_service_only.2.1 "   " _ (by decide)
  · exact blank_symbol_service_only.2.2.1 "   " _ (by decide)
  · exact blank_symbol_service_only.2.2.2 cfgW8 envW10 stW10 (by decide)
      (fun _ => rfl)

/-! ## C9: dedup is per-engine, `execute` builds a fresh engine -/

theorem retainNew_seen_subset {k : String × Nat} :
    ∀ (hits : List SearchHit) (seen : List (String × Nat)), k ∈ seen →
      k ∈ (retainNew seen hits).2 := by
  intro hits
  induction hits with
  | nil => intro seen h; exact h
  | cons x rest ih =>
    intro seen h
    rw [retainNew]
    split
    · exact ih seen h
    · exact ih _ (List.mem_cons_of_mem _ h)

/-- Counterexample to C9 as stated: two successive `execute` calls with
identical arguments both return the hit — the second does not return zero
new hits, because `search::execute` builds a fresh engine (and hence a
fresh, empty dedup cache) for every call. -/
theorem second_execute_returns_same_hits :
    dedupedOf rW9a = 1 ∧ dedupedOf rW9b = 1 ∧
    (topHitsOf rW9a).length = 1 ∧ topHitsOf rW9b = topHitsOf rW9a := by
  exact ⟨rfl, rfl, rfl, rfl⟩

/-- C9 amended: the dedup cache works only within a single engine
instance: `retain_new` keeps exactly the hits whose `(path, line)` key has
not been seen, drops everything already seen (so a repeat cycle *on the
same engine* yields zero new hits) and records kept keys; but
`search::execute` constructs a fresh engine — with an empty seen-cache —
on every call, so two successive `execute` calls with identical arguments
return the same hits, not zero the second time. -/
theorem dedup_within_engine_only :
    (∀ (seen : List (String × Nat)) (hits : List SearchHit) (h : SearchHit),
      h ∈ (retainNew seen hits).1 → h ∈ hits ∧ hitKey h ∉ seen) ∧
    (∀ (seen : List (String × Nat)) (hits : List SearchHit),
      (∀ h ∈ hits, hitKey h ∈ seen) → (retainNew seen hits).1 = []) ∧
    (∀ (seen : List (String × Nat)) (hits : List SearchHit) (h : SearchHit),
      h ∈ hits → hitKey h ∉ seen → hitKey h ∈ (retainNew seen hits).2) ∧
    (∀ (cfg : SearchConfigM) (env : ToolEnv) (loaded : PersistentStateData),
      executeM cfg env loaded = runCycle cfg env (freshEngineState loaded)) ∧
    (∀ loaded : PersistentStateData, (freshEngineState loaded).seen = []) := by
  refine ⟨?_, ?_, ?_, fun _ _ _ => rfl, fun _ => rfl⟩
  · intro seen hits
    induction hits generalizing seen with
    | nil =>
      intro h hm
      exact absurd hm (by simp [retainNew])
    | cons x rest ih =>
      intro h hm
      rw [retainNew] at hm
      split at hm
      · rename_i hk
        obtain ⟨h1, h2⟩ := ih seen h hm
        exact ⟨List.mem_cons_of_mem _ h1, h2⟩
      · rename_i hk
        rcases List.mem_cons.mp hm with he | hr
        · subst he
          exact ⟨List.mem_cons_self _ _, hk⟩
        · obtain ⟨h1, h2⟩ := ih (hitKey x :: seen) h hr
          exact ⟨List.mem_cons_of_mem _ h1,
            fun hc => h2 (List.mem_cons_of_mem _ hc)⟩
  · intro seen hits
    induction hits generalizing seen with
    | nil => intro _; rfl
    | cons x rest ih =>
      intro hall
      rw [retainNew]
      rw [if_pos (hall x (List.mem_cons_self _ _))]
      exact ih seen (fun h hm => hall h (List.mem_cons_of_mem _ hm))
  · intro seen hits
    induction hits generalizing seen with
    | nil =>
      intro h hm
      exact absurd hm (List.not_mem_nil h)
    | cons x rest ih =>
      intro h hm hk
      rw [retainNew]
      rcases List.mem_cons.mp hm with he | hr
      · subst he
        rw [if_neg hk]
        exact retainNew_seen_subset rest _ (List.mem_cons_self _ _)
      · by_cases hx : hitKey x ∈ seen
        · rw [if_pos hx]
          exact ih seen h hr hk
        · rw [if_neg hx]
          by_cases hhx : hitKey h = hitKey x
          · exact retainNew_seen_subset rest _ (hhx ▸ List.mem_cons_self _ _)
          · exact ih (hitKey x :: seen) h hr
              (fun hc => (List.mem_cons.mp hc).elim hhx hk)

/-- Witness for C9 (amended) at concrete inputs. -/
theorem dedup_within_engine_only_witness :
    (hW4 ∈ [hW4] ∧ hitKey hW4 ∉ [("x", 9)]) ∧
    (retainNew [("p", 1)] [hW4]).1 = [] ∧
    hitKey hW4 ∈ (retainNew [] [hW4]).2 := by
  refine ⟨?_, ?_, ?_⟩
  · exact dedup_within_engine_only.1 [("x", 9)] [hW4] hW4 (by decide)
  · exact dedup_within_engine_only.2.1 [("p", 1)] [hW4] (by decide)
  · exact dedup_within_engine_only.2.2.1 [] [hW4] hW4 (by decide) (by decide)

/-! ## C1: the log append is the one non-catastrophic propagating error -/

/-- Counterexample to C1 as stated: every adapter call succeeds and the
hint-store save succeeds, yet `run_cycle` returns an error — the `?` on
`log_summary` propagates a log-append failure, which is neither a tool
failure nor catastrophic. -/
theorem log_error_fails_cycle :
    runCycle { cfgW10 with hasLogDir := true }
      { envW10 with logResult := .error "log append failed" } stW10 =
      .error "log append failed" := rfl

/-- C1 amended: for every adapter outcome (each of fd, rg, rga, index and
ast-grep may fail arbitrarily) and every hint-store save outcome,
`run_cycle` returns a summary — provided the summary log append succeeds
when a log directory is configured; conversely the only error `run_cycle`
ever returns is a log-append failure (`log_summary(...).await?`). -/
theorem cycle_infallible_except_log :
    (∀ (cfg : SearchConfigM) (env : ToolEnv) (st : EngineState),
      (cfg.hasLogDir = true → env.logResult = .ok ()) →
      (runCycle cfg env st).isOk = true) ∧
    (∀ (cfg : SearchConfigM) (env : ToolEnv) (st : EngineState) (e : String),
      runCycle cfg env st = .error e →
      cfg.hasLogDir = true ∧ env.logResult = .error e) := by
  have key : ∀ (cfg : SearchConfigM) (env : ToolEnv)
      (r : SearchSummaryM × EngineState × Bool), logStep cfg env = .ok () →
      finishCycle cfg env r = .ok r := by
    intro cfg env r h
    rw [finishCycle, h]
  have hfin : ∀ (cfg : SearchConfigM) (env : ToolEnv)
      (r : SearchSummaryM × EngineState × Bool) (e : String),
      finishCycle cfg env r = .error e →
      cfg.hasLogDir = true ∧ env.logResult = .error e := by
    intro cfg env r e h
    rw [finishCycle] at h
    cases hls : logStep cfg env with
    | ok u =>
      simp only [hls] at h
      exact Except.noConfusion h
    | error e' =>
      simp only [hls] at h
      injection h with h
      rw [logStep] at hls
      by_cases hld : cfg.hasLogDir
      · rw [if_pos hld] at hls
        exact ⟨hld, h ▸ hls⟩
      · rw [if_neg hld] at hls
        exact absurd hls (by simp)
  constructor
  · intro cfg env st hlog
    have hok : logStep cfg env = .ok () := by
      cases hld : cfg.hasLogDir with
      | false => simp [logStep, hld]
      | true => simp [logStep, hld, hlog hld]
    simp only [runCycle]
    split
    · rw [key cfg env _ hok]
      rfl
    · rw [key cfg env _ hok]
      rfl
  · intro cfg env st e herr
    simp only [runCycle] at herr
    split at herr
    · exact hfin _ _ _ _ herr
    · exact hfin _ _ _ _ herr

/-- Witness for C1 (amended) at concrete inputs. -/
theorem cycle_infallible_except_log_witness :
    (runCycle cfgW10 envW10 stW10).isOk = true ∧
    (({ cfgW10 with hasLogDir := true } : SearchConfigM).hasLogDir = true ∧
      ({ envW10 with logResult := .error "log append failed" } : ToolEnv).logResult =
        .error "log append failed") := by
  constructor
  · exact cycle_infallible_except_log.1 cfgW10 envW10 stW10 (fun _ => rfl)
  · exact cycle_infallible_except_log.2
      { cfgW10 with hasLogDir := true }
      { envW10 with logResult := .error "log append failed" } stW10
      "log append failed" rfl

end SweGrep
